import Mathlib

/-!
# dr-docso: the documentation lookup handlers of `bot/handlers.go`

A shallow embedding of the lookup handlers (`HandleDoc`, `queryResponse`,
`typeResponse`, `pkgResponse`, `methodResponse`, `methodGlobResponse`) and of
the listing handlers (`FuncsPages`, `TypesPages`), with the properties of the
text blocks they build and of the pagination states they register.

Conventions of the embedding:

* a Go `string` is its sequence of bytes (`len` counts bytes, `s[:n]` is a byte
  prefix);
* a run-time panic (index or slice out of range, nil dereference) is an
  explicit error value, so every indexing of the source is a fallible step;
* the collaborators that live outside `handlers.go` (`getDoc`, the Go library
  functions `strings.EqualFold` and `strings.Fields`, and `glob.Compile`) are
  fields of an environment `Env`; those of the listing handlers
  (`formatForMessage`, `MakeTimestamp`, the session) are fields of `Pages` and
  `Session`;
* the page limit `int(math.Ceil(float64(n) / 10.0))` is computed on binary64
  values: the quotient is rounded to a significand of 53 bits, ties to even.
-/

namespace DrDocso

/-! ## Strings -/

/-- A Go string: an immutable sequence of bytes. -/
abbrev GoString := List UInt8

/-- The bytes of a string literal of the source. All literals of `handlers.go`
are ASCII, so every character is exactly one byte. -/
def lit (s : String) : GoString :=
  s.toList.map (fun c => c.toNat.toUInt8)

/-- The run-time panics the handlers could raise. -/
inductive Panic where
  | indexOutOfRange
  | sliceOutOfRange
  | nilDereference
  deriving DecidableEq, Repr

/-- Go code that either produces a value or panics. -/
abbrev Go := Except Panic

/-- Go indexing `xs[i]`: panics when `i` is not below `len(xs)`. -/
def index {α : Type} (xs : List α) (i : Nat) : Go α :=
  match xs.get? i with
  | some x => pure x
  | none => throw Panic.indexOutOfRange

/-- Go slicing `s[:n]` of a string: panics when `n` exceeds `len(s)`. -/
def slicePrefix (s : GoString) (n : Nat) : Go GoString :=
  if n ≤ s.length then pure (s.take n) else throw Panic.sliceOutOfRange

/-- Dereference of a pointer that may be nil. -/
def deref {α : Type} (p : Option α) : Go α :=
  match p with
  | some x => pure x
  | none => throw Panic.nilDereference

/-- Go `strings.Contains(s, sub)`: `sub` occurs in `s` as a contiguous run of bytes. -/
def Contains (s sub : GoString) : Bool :=
  decide (sub <:+: s)

/-- Go `strings.Split(s, sep)` for a separator of one byte, which is the only way
`handlers.go` calls it (`strings.Split(fields[2], ".")`): the pieces of `s`
between all occurrences of `sep`, empty pieces included. -/
def Split : GoString → UInt8 → List GoString
  | [], _ => [[]]
  | c :: s, sep =>
    if c = sep then [] :: Split s sep
    else
      match Split s sep with
      | [] => [[c]]
      | p :: ps => (c :: p) :: ps

/-- Go `fmt.Sprint(n)` / `%v` of a non-negative `int`: its decimal digits. -/
def itoa (n : Nat) : GoString :=
  lit (toString n)

/-! ## Data model -/

/-- Modelled from the spec: `docs.FunctionType`, the kind of a function entry
(`docs.FnNormal` for a plain function, `docs.FnMethod` for a method); the
declaration is in package `docs`, outside `handlers.go`. -/
inductive FunctionType where
  | FnNormal
  | FnMethod
  deriving DecidableEq, Repr

/-- Modelled from the spec: `docs.Function` (name, kind, owning-type name,
signature text, comment lines, example text). The source field `Type` is
spelled `FnType` here because `Type` is reserved. -/
structure Function where
  Name : GoString
  FnType : FunctionType
  MethodOf : GoString
  Signature : GoString
  Comments : List GoString
  Example : GoString
  deriving DecidableEq, Repr

/-- Modelled from the spec: `docs.Type` (name, signature text, comment lines). -/
structure TypeEntry where
  Name : GoString
  Signature : GoString
  Comments : List GoString
  deriving DecidableEq, Repr

/-- Modelled from the spec: `docs.Doc`, the index of one package (its URL and
the ordered type and function entries). -/
structure Doc where
  URL : GoString
  Types : List TypeEntry
  Functions : List Function
  deriving DecidableEq, Repr

/-- The footer of a message block (`discordgo.MessageEmbedFooter`). -/
structure MessageEmbedFooter where
  Text : GoString
  deriving DecidableEq, Repr

/-- The fields of `discordgo.MessageEmbed` the handlers set; `Footer` is a
pointer and stays nil in error blocks. -/
structure MessageEmbed where
  Title : GoString
  Description : GoString
  Footer : Option MessageEmbedFooter
  deriving DecidableEq, Repr

/-- The pair `(doc, err)` returned by `getDoc`: `doc` is a pointer that may be
nil, `err` tells whether the error value is non-nil. -/
structure Fetched where
  doc : Option Doc
  err : Bool
  deriving DecidableEq, Repr

/-- A compiled glob: its `MatchString` method. -/
abbrev Matcher := GoString → Bool

/-- The collaborators of the handlers that are not in `handlers.go`. -/
structure Env where
  /-- The index provider `getDoc(pkg)`. -/
  getDoc : GoString → Fetched
  /-- Go `strings.EqualFold`: equality under Unicode case folding. -/
  EqualFold : GoString → GoString → Bool
  /-- Go `strings.Fields`: the maximal runs of non-space characters. -/
  Fields : GoString → List GoString
  /-- The constructor `glob.Compile(pattern)`: a matcher, or an error with its message. -/
  Compile : GoString → Except GoString Matcher

/-! ## The handlers -/

/-- The block `DocsHelpEmbed`. -/
def DocsHelpEmbed : MessageEmbed :=
  { Title := lit "Docs help!", Description := [], Footer := none }

/-- `errResponse`: the error block; `text` is the formatted description. -/
def errResponse (text : GoString) : MessageEmbed :=
  { Title := lit "Error", Description := text, Footer := none }

/-- The notice appended by `queryResponse` and `methodGlobResponse` to a cut text. -/
def noteWas : GoString :=
  lit "\n\n*note: the message was trimmed to fit the 2k character limit*"

/-- The notice appended by `typeResponse` and `methodResponse` to a cut text. -/
def noteIs : GoString :=
  lit "\n\n*note: the message is trimmed to fit the 2k character limit*"

/-- The conditional `if len(msg) > 2000 { msg = fmt.Sprintf("%s"+note, msg[:1950]) }`
that ends each lookup (lines 85-87, 133-135, 197-199, 346-348). -/
def trimmed (note msg : GoString) : Go GoString :=
  if msg.length > 2000 then do
    let head ← slicePrefix msg 1950
    pure (head ++ note)
  else pure msg

/-- The body of the function loop of `queryResponse` (lines 54-66); the state is
the pair of the variables `name` and `msg`. -/
def queryFnStep (env : Env) (st : GoString × GoString) (fn : Function) :
    Go (GoString × GoString) :=
  if fn.FnType = FunctionType.FnNormal ∧ env.EqualFold fn.Name st.1 = true then do
    let msg := st.2 ++ (lit "`" ++ fn.Signature ++ lit "`")
    let msg ←
      if fn.Comments.length > 0 then do
        let c ← index fn.Comments 0
        pure (msg ++ (lit "\n" ++ c))
      else pure (msg ++ lit "\n*no information*")
    let msg :=
      if fn.Example ≠ [] then msg ++ (lit "\n\nExample:\n```go\n" ++ fn.Example ++ lit "\n```")
      else msg
    pure (fn.Name, msg)
  else pure st

/-- The body of the type loop of `queryResponse` (lines 71-78). -/
def queryTypeStep (env : Env) (name : GoString) (msg : GoString) (t : TypeEntry) :
    Go GoString :=
  if env.EqualFold name t.Name = true then do
    let msg := msg ++ (lit "```go\n" ++ t.Signature ++ lit "\n```\n")
    if t.Comments.length > 0 then do
      let c ← index t.Comments 0
      pure (msg ++ c)
    else pure (msg ++ lit "*no information available*\n")
  else pure msg

/-- The two loops of `queryResponse` (lines 52-80): the final values of the
variables `name` and `msg`. -/
def queryAssemble (env : Env) (doc : Doc) (name : GoString) : Go (GoString × GoString) := do
  let st ← doc.Functions.foldlM (queryFnStep env) (name, [])
  let name := st.1
  let msg ←
    if st.2 = [] then doc.Types.foldlM (queryTypeStep env name) st.2
    else pure st.2
  pure (name, msg)

/-- `queryResponse(pkg, name)`: the symbol lookup. -/
def queryResponse (env : Env) (pkg name : GoString) : Go MessageEmbed :=
  let r := env.getDoc pkg
  if r.err then
    pure (errResponse
      (lit "An error occurred while fetching the page for pkg `" ++ pkg ++ lit "`"))
  else do
    let doc ← deref r.doc
    let st ← queryAssemble env doc name
    let name := st.1
    let msg := st.2
    if msg = [] then
      pure (errResponse
        (lit "No type or function `" ++ name ++ lit "` found in package `" ++ pkg ++ lit "`"))
    else do
      let msg ← trimmed noteWas msg
      pure { Title := pkg ++ lit ": " ++ name
             Description := msg
             Footer := some { Text := doc.URL ++ lit "#" ++ name } }

/-- The body of the loop of `typeResponse` (lines 116-127); the state is the
pair of the variables `name` and `msg`. -/
def typeStep (env : Env) (st : GoString × GoString) (t : TypeEntry) :
    Go (GoString × GoString) :=
  if env.EqualFold t.Name st.1 = true then do
    let msg := st.2 ++ (lit "```go\n" ++ t.Signature ++ lit "\n```")
    if t.Comments.length > 0 then do
      let c ← index t.Comments 0
      pure (t.Name, msg ++ (lit "\n" ++ c))
    else pure (t.Name, msg ++ lit "\n*no information*")
  else pure st

/-- The loop of `typeResponse` (lines 113-128): the final values of the
variables `name` and `msg`. -/
def typeAssemble (env : Env) (doc : Doc) (name : GoString) : Go (GoString × GoString) :=
  doc.Types.foldlM (typeStep env) (name, [])

/-- `typeResponse(pkg, name)`: the type lookup. -/
def typeResponse (env : Env) (pkg name : GoString) : Go MessageEmbed :=
  let r := env.getDoc pkg
  if r.err then
    pure (errResponse
      (lit "An error occurred while getting the page for the package `" ++ pkg ++ lit "`"))
  else do
    let doc ← deref r.doc
    if doc.Types.length = 0 then
      pure (errResponse (lit "Package `" ++ pkg ++ lit "` seems to have no type definitions"))
    else do
      let st ← typeAssemble env doc name
      let name := st.1
      let msg := st.2
      if msg = [] then
        pure (errResponse
          (lit "Package `" ++ pkg ++ lit "` does not have type `" ++ name ++ lit "`"))
      else do
        let msg ← trimmed noteIs msg
        pure { Title := pkg ++ lit ": type " ++ name
               Description := msg
               Footer := some { Text := doc.URL ++ lit "#" ++ name } }

/-- `helpShortResponse()`. -/
def helpShortResponse : MessageEmbed :=
  DocsHelpEmbed

/-- `pkgResponse(pkg)`: the package summary. -/
def pkgResponse (env : Env) (pkg : GoString) : Go MessageEmbed :=
  let r := env.getDoc pkg
  if r.err then
    pure (errResponse
      (lit "An error occured when requesting the page for the package `" ++ pkg ++ lit "`"))
  else do
    let doc ← deref r.doc
    pure { Title := lit "Info for " ++ pkg
           Description :=
             lit "Types: " ++ itoa doc.Types.length ++ lit "\nFunctions:" ++
               itoa doc.Functions.length
           Footer := none }

/-- The body of the loop of `methodGlobResponse` (lines 332-341). -/
def globStep (reT reN : Matcher) (msg : GoString) (fn : Function) : Go GoString :=
  if fn.FnType = FunctionType.FnMethod ∧ reT fn.MethodOf = true ∧ reN fn.Name = true then do
    let msg := msg ++ (lit "`" ++ fn.Signature ++ lit "`:\n")
    if fn.Comments.length > 0 then do
      let c ← index fn.Comments 0
      pure (msg ++ c)
    else pure (msg ++ lit "*no information available*")
  else pure msg

/-- The loop of `methodGlobResponse` (lines 330-342): the final value of `msg`. -/
def globAssemble (reT reN : Matcher) (doc : Doc) : Go GoString :=
  doc.Functions.foldlM (globStep reT reN) []

/-- `methodGlobResponse(pkg, t, name)`: the glob lookup. -/
def methodGlobResponse (env : Env) (pkg t name : GoString) : Go MessageEmbed :=
  match env.Compile t with
  | Except.error err =>
    pure (errResponse (lit "Error processing glob pattern:\n```\n" ++ err ++ lit "\n```"))
  | Except.ok reT =>
    match env.Compile name with
    | Except.error err =>
      pure (errResponse (lit "Error processing glob pattern:\n```\n" ++ err ++ lit "\n```"))
    | Except.ok reN =>
      let r := env.getDoc pkg
      if r.err then
        pure (errResponse
          (lit "An error occurred while getting the page for the package `" ++ pkg ++ lit "`"))
      else do
        let doc ← deref r.doc
        if doc.Functions.length = 0 ∨ doc.Types.length = 0 then
          pure (errResponse
            (lit "No results found matching the expression `" ++ t ++ lit "." ++ name ++
              lit "` in package `" ++ pkg ++ lit "`"))
        else do
          let msg ← globAssemble reT reN doc
          if msg = [] then
            pure (errResponse
              (lit "No results found matching the expression `" ++ t ++ lit "." ++ name ++
                lit "` in package `" ++ pkg ++ lit "`"))
          else do
            let msg ← trimmed noteWas msg
            pure { Title := lit "Matches"
                   Description := msg
                   Footer := some { Text := doc.URL } }

/-- The body of the loop of `methodResponse` (lines 179-192); the state is the
pair of the variables `msg` and `hyper`. -/
def methodStep (env : Env) (url t name : GoString) (st : GoString × GoString)
    (fn : Function) : Go (GoString × GoString) :=
  if fn.FnType = FunctionType.FnMethod ∧ env.EqualFold fn.Name name = true ∧
      env.EqualFold fn.MethodOf t = true then do
    let hyper := url ++ lit "#" ++ fn.MethodOf ++ lit "." ++ fn.Name
    let msg := st.1 ++ (lit "`" ++ fn.Signature ++ lit "`")
    let msg ←
      if fn.Comments.length > 0 then do
        let c ← index fn.Comments 0
        pure (msg ++ (lit "\n" ++ c))
      else pure (msg ++ lit "\n*no info*")
    let msg :=
      if fn.Example ≠ [] then msg ++ (lit "\nExample:\n```\n" ++ fn.Example ++ lit "\n```")
      else msg
    pure (msg, hyper)
  else pure st

/-- The loop of `methodResponse` (lines 176-193): the final values of the
variables `msg` and `hyper`. -/
def methodAssemble (env : Env) (doc : Doc) (t name : GoString) : Go (GoString × GoString) :=
  doc.Functions.foldlM (methodStep env doc.URL t name) ([], [])

/-- `methodResponse(pkg, t, name)`: the method lookup. -/
def methodResponse (env : Env) (pkg t name : GoString) : Go MessageEmbed :=
  if Contains t (lit "*") || Contains name (lit "*") then
    methodGlobResponse env pkg t name
  else
    let r := env.getDoc pkg
    if r.err then
      pure (errResponse
        (lit "Error while getting the page for the package `" ++ pkg ++ lit "`"))
    else do
      let doc ← deref r.doc
      if doc.Functions.length = 0 then
        pure (errResponse (lit "Package `" ++ pkg ++ lit "` seems to have no functions"))
      else do
        let st ← methodAssemble env doc t name
        let msg := st.1
        let hyper := st.2
        if msg = [] then
          pure (errResponse
            (lit "Package `" ++ pkg ++ lit "` does not have `func(" ++ t ++ lit ") " ++ name ++
              lit "`"))
        else do
          let msg ← trimmed noteIs msg
          pure { Title := pkg ++ lit ": func(" ++ t ++ lit ") " ++ name
                 Description := msg
                 Footer := some { Text := hyper } }

/-- `HandleDoc`: the handler of the doc command on a message with text
`content`. The result is the block handed to `ChannelMessageSendEmbed`, or
`none` when the handler returns without sending. -/
def HandleDoc (env : Env) (content : GoString) : Go (Option MessageEmbed) :=
  let fields := env.Fields content
  match fields.length with
  | 0 => pure none
  | n + 1 => do
    let msg : Option MessageEmbed ←
      match n with
      | 0 => pure (some helpShortResponse)
      | 1 => do
        let pkg ← index fields 1
        let e ← pkgResponse env pkg
        pure (some e)
      | 2 => do
        let tok ← index fields 2
        if Contains tok (lit ".") then do
          let split := Split tok 46
          let pkg ← index fields 1
          let t ← index split 0
          let name ← index split 1
          let e ← methodResponse env pkg t name
          pure (some e)
        else do
          let pkg ← index fields 1
          let name ← index fields 2
          let e ← queryResponse env pkg name
          pure (some e)
      | _ => pure (some (errResponse (lit "Too many arguments.")))
    match msg with
    | none => pure (some (errResponse (lit "No results found, possibly an internal error.")))
    | some e => pure (some e)

/-! ## Reference renderings

The texts the specification asks for, written entry by entry; the theorems
below compare the loops of the handlers with them. -/

/-- The first comment line of an entry, or `placeholder` when it has none. -/
def firstLineOr (placeholder : GoString) (comments : List GoString) : GoString :=
  match comments with
  | [] => placeholder
  | c :: _ => c

/-- The truncation policy: a text longer than 2000 bytes is cut to its first
1950 bytes followed by `note`, a shorter one is kept. -/
def cut (note text : GoString) : GoString :=
  if text.length > 2000 then text.take 1950 ++ note else text

/-- The text of one function entry in the symbol lookup. -/
def renderQueryFn (fn : Function) : GoString :=
  lit "`" ++ fn.Signature ++ lit "`" ++
    (lit "\n" ++ firstLineOr (lit "*no information*") fn.Comments) ++
    (if fn.Example = [] then [] else lit "\n\nExample:\n```go\n" ++ fn.Example ++ lit "\n```")

/-- The text of one type entry in the fallback of the symbol lookup. -/
def renderQueryType (t : TypeEntry) : GoString :=
  lit "```go\n" ++ t.Signature ++ lit "\n```\n" ++
    firstLineOr (lit "*no information available*\n") t.Comments

/-- The text of one type entry in the type lookup. -/
def renderType (t : TypeEntry) : GoString :=
  lit "```go\n" ++ t.Signature ++ lit "\n```" ++
    (lit "\n" ++ firstLineOr (lit "*no information*") t.Comments)

/-- The text of one method entry in the exact method lookup. -/
def renderMethod (fn : Function) : GoString :=
  lit "`" ++ fn.Signature ++ lit "`" ++
    (lit "\n" ++ firstLineOr (lit "*no info*") fn.Comments) ++
    (if fn.Example = [] then [] else lit "\nExample:\n```\n" ++ fn.Example ++ lit "\n```")

/-- The text of one method entry in the glob lookup. -/
def renderGlob (fn : Function) : GoString :=
  lit "`" ++ fn.Signature ++ lit "`:\n" ++
    firstLineOr (lit "*no information available*") fn.Comments

/-- The Plain-kind function entries of `doc` whose name equals `name` under `EqualFold`. -/
def plainMatches (env : Env) (doc : Doc) (name : GoString) : List Function :=
  doc.Functions.filter
    (fun fn => decide (fn.FnType = FunctionType.FnNormal) && env.EqualFold fn.Name name)

/-- The type entries of `doc` whose name equals `name` under `EqualFold`. -/
def typeMatches (env : Env) (doc : Doc) (name : GoString) : List TypeEntry :=
  doc.Types.filter (fun t => env.EqualFold name t.Name)

/-- The Method-kind entries of `doc` whose name equals `name` and whose
owning-type name equals `t` under `EqualFold`. -/
def methodMatches (env : Env) (doc : Doc) (t name : GoString) : List Function :=
  doc.Functions.filter
    (fun fn => decide (fn.FnType = FunctionType.FnMethod) && env.EqualFold fn.Name name &&
      env.EqualFold fn.MethodOf t)

/-- The Method-kind entries of `doc` whose owning-type name satisfies `reT` and
whose name satisfies `reN`. -/
def globMatches (reT reN : Matcher) (doc : Doc) : List Function :=
  doc.Functions.filter
    (fun fn => decide (fn.FnType = FunctionType.FnMethod) && reT fn.MethodOf && reN fn.Name)

/-! ## Concrete collaborators on ASCII text

Used to run the handlers on examples: on text whose bytes are all ASCII they
agree with the Go library functions they stand for. -/

/-- The lower-case form of an ASCII letter; other bytes are unchanged. -/
def asciiLower (c : UInt8) : UInt8 :=
  if 65 ≤ c ∧ c ≤ 90 then c + 32 else c

/-- Equality under ASCII case folding (`strings.EqualFold` on ASCII text). -/
def asciiEqualFold (a b : GoString) : Bool :=
  decide (a.map asciiLower = b.map asciiLower)

/-- The ASCII white space of Go: tab, line feed, vertical tab, form feed,
carriage return and space. -/
def isAsciiSpace (c : UInt8) : Bool :=
  c = 9 || c = 10 || c = 11 || c = 12 || c = 13 || c = 32

/-- The scan of `asciiFields`: `cur` holds the bytes of the current token, last first. -/
def fieldsAux : GoString → GoString → List GoString
  | cur, [] => if cur = [] then [] else [cur.reverse]
  | cur, c :: s =>
    if isAsciiSpace c then
      if cur = [] then fieldsAux [] s else cur.reverse :: fieldsAux [] s
    else fieldsAux (c :: cur) s

/-- The maximal runs of non-space bytes (`strings.Fields` on ASCII text). -/
def asciiFields (s : GoString) : List GoString :=
  fieldsAux [] s

/-- Modelled from the spec: the matcher of package `glob`, which is not in
`handlers.go`. A pattern matches a candidate as a whole (anchored at both
ends), the wildcard `*` stands for zero or more bytes, and letters are compared
without regard to case. -/
def globMatch : GoString → GoString → Bool
  | [], cand => decide (cand = [])
  | p :: ps, cand =>
    if p = 42 then cand.tails.any (globMatch ps)
    else
      match cand with
      | [] => false
      | c :: cs => decide (asciiLower p = asciiLower c) && globMatch ps cs

/-- Modelled from the spec: `glob.Compile`. The spec names no wildcard syntax
that is malformed for the single token `*`, so every pattern compiles. -/
def specCompile (pattern : GoString) : Except GoString Matcher :=
  Except.ok (globMatch pattern)

/-- An environment over one package: `getDoc` answers `doc` for the package
named `pkg` and fails for every other name; the library functions are the
ASCII ones and the globs those of the spec. -/
def envOf (pkg : GoString) (doc : Doc) : Env :=
  { getDoc := fun p => if p = pkg then { doc := some doc, err := false }
                       else { doc := none, err := true }
    EqualFold := asciiEqualFold
    Fields := asciiFields
    Compile := specCompile }

/-- An index with a plain function `f`, a method `T.m` and a type `T`, which all
have the signature `sig`, no comment and no example. -/
def docWithSignature (sig : GoString) : Doc :=
  { URL := lit "https://pkg.go.dev/p"
    Types := [{ Name := lit "T", Signature := sig, Comments := [] }]
    Functions :=
      [{ Name := lit "f", FnType := FunctionType.FnNormal, MethodOf := [],
         Signature := sig, Comments := [], Example := [] },
       { Name := lit "m", FnType := FunctionType.FnMethod, MethodOf := lit "T",
         Signature := sig, Comments := [], Example := [] }] }

/-- The index `docWithSignature` for a signature of 2001 bytes `a`. -/
def longDoc : Doc :=
  docWithSignature (List.replicate 2001 97)

/-- What the lookups rely on about `strings.EqualFold`: it is symmetric and
transitive, as every equality of case-folded texts is. -/
def FoldLaws (E : GoString → GoString → Bool) : Prop :=
  (∀ a b, E a b = true → E b a = true) ∧
    (∀ a b c, E a b = true → E b c = true → E a c = true)

/-- A small index of package `strings`: the type `Builder`, the methods
`Builder.WriteString`, `Builder.WriteByte` and `Reader.Read`, and the plain
function `Join`. -/
def stringsDoc : Doc :=
  { URL := lit "https://pkg.go.dev/strings"
    Types :=
      [{ Name := lit "Builder", Signature := lit "type Builder struct",
         Comments := [lit "A Builder is used to build a string."] }]
    Functions :=
      [{ Name := lit "WriteString", FnType := FunctionType.FnMethod, MethodOf := lit "Builder",
         Signature := lit "func (b *Builder) WriteString(s string) (int, error)",
         Comments := [lit "WriteString appends s to the buffer.", lit "It returns len(s)."],
         Example := [] },
       { Name := lit "WriteByte", FnType := FunctionType.FnMethod, MethodOf := lit "Builder",
         Signature := lit "func (b *Builder) WriteByte(c byte) error",
         Comments := [], Example := lit "b.WriteByte(65)" },
       { Name := lit "Read", FnType := FunctionType.FnMethod, MethodOf := lit "Reader",
         Signature := lit "func (r *Reader) Read(b []byte) (int, error)",
         Comments := [lit "Read implements io.Reader."], Example := [] },
       { Name := lit "Join", FnType := FunctionType.FnNormal, MethodOf := [],
         Signature := lit "func Join(elems []string, sep string) string",
         Comments := [lit "Join concatenates the elements."], Example := [] }] }

/-- The environment of the examples: package `strings` with the index `stringsDoc`. -/
def stringsEnv : Env :=
  envOf (lit "strings") stringsDoc

/-- An index with the single method `T.m`, whose signature is `sig` and whose
only comment line is `comment`, and the type `T`. -/
def methodDoc (sig comment : GoString) : Doc :=
  { URL := lit "https://pkg.go.dev/p"
    Types := [{ Name := lit "T", Signature := lit "type T struct", Comments := [] }]
    Functions :=
      [{ Name := lit "m", FnType := FunctionType.FnMethod, MethodOf := lit "T",
         Signature := sig, Comments := [comment], Example := [] }] }

/-- A signature of 2001 bytes: 2000 bytes `a` and a final `Z`. -/
def longSignature : GoString :=
  List.replicate 2000 97 ++ [90]

/-- The index `methodDoc` for the signature `longSignature` and the comment `Z`. -/
def cutDoc : Doc :=
  methodDoc longSignature (lit "Z")

/-- The index `stringsDoc` without its types. -/
def noTypesDoc : Doc :=
  { stringsDoc with Types := [] }

/-! ## The listing handlers -/

/-- A non-negative binary64 value, `mant / 2 ^ scale`. -/
structure Float64 where
  mant : Nat
  scale : Nat
  deriving DecidableEq, Repr

/-- The integer nearest to `a / b`, a tie going to the even one: the default
rounding of IEEE 754 arithmetic. -/
def roundHalfEven (a b : Nat) : Nat :=
  if 2 * (a % b) < b then a / b
  else if b < 2 * (a % b) then a / b + 1
  else if (a / b) % 2 = 0 then a / b
  else a / b + 1

/-- The least scale `s`, searched upwards from the given one in at most `fuel`
steps, for which `n * 2 ^ s / 10` reaches `2 ^ 52`, so that the quotient has a
significand of 53 bits. -/
def scaleSearch (n : Nat) : Nat → Nat → Nat
  | 0, s => s
  | fuel + 1, s => if 10 * 2 ^ 52 ≤ n * 2 ^ s then s else scaleSearch n fuel (s + 1)

/-- Go `float64(n) / 10.0` for a length `n` below `2 ^ 53`, which `float64`
holds exactly: the quotient `n / 10` rounded to the nearest binary64 value. -/
def divTen (n : Nat) : Float64 :=
  { mant := roundHalfEven (n * 2 ^ scaleSearch n 57 0) 10, scale := scaleSearch n 57 0 }

/-- Go `int(math.Ceil(x))`: the least integer that is not below `x`. -/
def Ceil (x : Float64) : Nat :=
  (x.mant + 2 ^ x.scale - 1) / 2 ^ x.scale

/-- The author of a message (`discordgo.User`): its identifier. -/
structure User where
  ID : GoString
  deriving DecidableEq, Repr

/-- The fields of the event `discordgo.MessageCreate` the handlers read. -/
structure MessageCreate where
  Content : GoString
  ChannelID : GoString
  Author : User
  deriving DecidableEq, Repr

/-- The fields of a sent `discordgo.Message` the handlers read. -/
structure Message where
  ID : GoString
  ChannelID : GoString
  deriving DecidableEq, Repr

/-- Modelled from the spec: `ReactionListener`, the pagination state of one
listing (kind, current page, page limit, identifier of the requester, the
index, time of the last use); the declaration is outside `handlers.go`. The
source field `Type` is spelled `PageType` here because `Type` is reserved. -/
structure ReactionListener where
  PageType : GoString
  CurrentPage : Nat
  PageLimit : Nat
  UserID : GoString
  Data : Doc
  LastUsed : Int
  deriving DecidableEq, Repr

/-- The table `pageListeners` from message identifiers to pagination states. -/
abbrev Registry := GoString → Option ReactionListener

/-- The assignment `pageListeners[id] = page`. -/
def Registry.store (reg : Registry) (id : GoString) (page : ReactionListener) : Registry :=
  fun k => if k = id then some page else reg k

/-- What a handler asks the session to do. -/
inductive Effect where
  | sendEmbed (channel : GoString) (embed : MessageEmbed)
  | reactionAdd (channel : GoString) (id : GoString) (emoji : GoString)
  deriving DecidableEq, Repr

/-- The session as the listing handlers use it: `ChannelMessageSendEmbed`
answers with the sent message, or with `none` when it reports an error. -/
structure Session where
  ChannelMessageSendEmbed : GoString → MessageEmbed → Option Message

/-- The parts of the pagination code that are not in `handlers.go`. -/
structure Pages where
  /-- Modelled from the spec: `formatForMessage`, the text of the current page
  of a listing (`format(entries) -> string`). -/
  formatForMessage : ReactionListener → GoString
  /-- The value `MakeTimestamp()` returns at the call. -/
  MakeTimestamp : Int
  /-- The constant `leftArrow`. -/
  leftArrow : GoString
  /-- The constant `rightArrow`. -/
  rightArrow : GoString
  /-- The constant `destroyEmoji`. -/
  destroyEmoji : GoString

/-- `PagesShortResponse(state, prefix)`: the help block of the listing commands. -/
def PagesShortResponse (state pfx : GoString) : MessageEmbed :=
  { Title := lit "Help " ++ state
    Description :=
      lit "It seems you didn't have enough arguments, so here's an example!\n\n" ++ pfx ++
        state ++ lit " strings"
    Footer := none }

/-- The pagination state built by `FuncsPages` (lines 233-241). -/
def funcsListener (pages : Pages) (m : MessageCreate) (doc : Doc) : ReactionListener :=
  { PageType := lit "functions"
    CurrentPage := 1
    PageLimit := Ceil (divTen doc.Functions.length)
    UserID := m.Author.ID
    Data := doc
    LastUsed := pages.MakeTimestamp }

/-- The pagination state built by `TypesPages` (lines 281-289). -/
def typesListener (pages : Pages) (m : MessageCreate) (doc : Doc) : ReactionListener :=
  { PageType := lit "types"
    CurrentPage := 1
    PageLimit := Ceil (divTen doc.Types.length)
    UserID := m.Author.ID
    Data := doc
    LastUsed := pages.MakeTimestamp }

/-- The block of the first page (lines 242-249 and 290-297): the title, the
text of `formatForMessage` and the footer `Page 1/` followed by the page limit. -/
def firstPageEmbed (pages : Pages) (title : GoString) (page : ReactionListener) :
    MessageEmbed :=
  { Title := title
    Description := pages.formatForMessage page
    Footer := some { Text := lit "Page 1/" ++ itoa page.PageLimit } }

/-- `FuncsPages`: the handler of the function listing. The result is the table
`pageListeners` after the call and the requests made to the session. -/
def FuncsPages (env : Env) (pages : Pages) (s : Session) (pageListeners : Registry)
    (m : MessageCreate) (pfx : GoString) : Go (Registry × List Effect) :=
  let fields := env.Fields m.Content
  match fields.length with
  | 0 => pure (pageListeners, [])
  | 1 =>
    pure (pageListeners,
      [Effect.sendEmbed m.ChannelID (PagesShortResponse (lit "getfuncs") pfx)])
  | 2 => do
    let pkg ← index fields 1
    let r := env.getDoc pkg
    if r.err = true ∨ r.doc = none then do
      let pkg ← index fields 1
      pure (pageListeners,
        [Effect.sendEmbed m.ChannelID (errResponse
          (lit "Error while getting the page for the package `" ++ pkg ++ lit "`"))])
    else do
      let doc ← deref r.doc
      let page := funcsListener pages m doc
      let embed := firstPageEmbed pages (lit "functions") page
      match s.ChannelMessageSendEmbed m.ChannelID embed with
      | none => pure (pageListeners, [Effect.sendEmbed m.ChannelID embed])
      | some sent =>
        pure (pageListeners.store sent.ID page,
          [Effect.sendEmbed m.ChannelID embed,
           Effect.reactionAdd sent.ChannelID sent.ID pages.leftArrow,
           Effect.reactionAdd sent.ChannelID sent.ID pages.rightArrow,
           Effect.reactionAdd sent.ChannelID sent.ID pages.destroyEmoji])
  | _ =>
    pure (pageListeners,
      [Effect.sendEmbed m.ChannelID (PagesShortResponse (lit "getfuncs") pfx)])

/-- `TypesPages`: the handler of the type listing. The result is the table
`pageListeners` after the call and the requests made to the session. -/
def TypesPages (env : Env) (pages : Pages) (s : Session) (pageListeners : Registry)
    (m : MessageCreate) (pfx : GoString) : Go (Registry × List Effect) :=
  let fields := env.Fields m.Content
  match fields.length with
  | 0 => pure (pageListeners, [])
  | 1 =>
    pure (pageListeners,
      [Effect.sendEmbed m.ChannelID (PagesShortResponse (lit "gettypes") pfx)])
  | 2 => do
    let pkg ← index fields 1
    let r := env.getDoc pkg
    if r.err = true ∨ r.doc = none then do
      let pkg ← index fields 1
      pure (pageListeners,
        [Effect.sendEmbed m.ChannelID (errResponse
          (lit "Error while getting the page for the package `" ++ pkg ++ lit "`"))])
    else do
      let doc ← deref r.doc
      let page := typesListener pages m doc
      let embed := firstPageEmbed pages (lit "types") page
      match s.ChannelMessageSendEmbed m.ChannelID embed with
      | none => pure (pageListeners, [Effect.sendEmbed m.ChannelID embed])
      | some sent =>
        pure (pageListeners.store sent.ID page,
          [Effect.sendEmbed m.ChannelID embed,
           Effect.reactionAdd sent.ChannelID sent.ID pages.leftArrow,
           Effect.reactionAdd sent.ChannelID sent.ID pages.rightArrow,
           Effect.reactionAdd sent.ChannelID sent.ID pages.destroyEmoji])
  | _ =>
    pure (pageListeners,
      [Effect.sendEmbed m.ChannelID (PagesShortResponse (lit "gettypes") pfx)])

/-- An index of package `strings` with `n` functions and `n` types. -/
def listingDoc (n : Nat) : Doc :=
  { URL := lit "https://pkg.go.dev/strings"
    Types := List.replicate n { Name := lit "T", Signature := lit "type T int", Comments := [] }
    Functions := List.replicate n
      { Name := lit "F", FnType := FunctionType.FnNormal, MethodOf := [],
        Signature := lit "func F()", Comments := [], Example := [] } }

/-- Pagination parts for the examples: every page has the text `page`. -/
def samplePages : Pages :=
  { formatForMessage := fun _ => lit "page"
    MakeTimestamp := 1000
    leftArrow := lit "<"
    rightArrow := lit ">"
    destroyEmoji := lit "x" }

/-- A session whose sends succeed: the sent message has the identifier `m1`. -/
def okSession : Session :=
  { ChannelMessageSendEmbed := fun channel _ => some { ID := lit "m1", ChannelID := channel } }

/-- A session whose sends fail. -/
def failingSession : Session :=
  { ChannelMessageSendEmbed := fun _ _ => none }

/-- A table with the single entry `m0`, a listing of the types of `stringsDoc`. -/
def sampleRegistry : Registry :=
  fun k =>
    if k = lit "m0" then
      some { PageType := lit "types", CurrentPage := 1, PageLimit := 1, UserID := lit "u0",
             Data := stringsDoc, LastUsed := 7 }
    else none

/-- The message `!getfuncs strings` of the user `u1` in the channel `c1`. -/
def listingRequest : MessageCreate :=
  { Content := lit "!getfuncs strings", ChannelID := lit "c1", Author := { ID := lit "u1" } }

/-- The number of characters of a UTF-8 text: the bytes that do not continue a
character (the continuation bytes are those from `0x80` to `0xBF`). -/
def charCount (s : GoString) : Nat :=
  s.countP (fun b => !(decide (128 ≤ b) && decide (b < 192)))

/-- The text of `n` characters `é`, each encoded in UTF-8 by the two bytes
`0xC3 0xA9`. -/
def accents : Nat → GoString
  | 0 => []
  | n + 1 => 195 :: 169 :: accents n

/-- The index `docWithSignature` for a signature of 1001 characters `é`, which
are 2002 bytes. -/
def accentDoc : Doc :=
  docWithSignature (accents 1001)

-- Structural equality of results, so that closed facts can be decided.
deriving instance DecidableEq for Except

/-! ## Basic facts about the fallible steps -/

theorem trimmed_eq_cut (note msg : GoString) : trimmed note msg = Except.ok (cut note msg) := by
  unfold trimmed cut slicePrefix
  by_cases h : msg.length > 2000
  · have h2 : 1950 ≤ msg.length := by omega
    simp [h, h2]
    rfl
  · simp [h]
    rfl

theorem foldlM_pure {σ α : Type} (f : σ → α → Go σ) (g : σ → α → σ)
    (h : ∀ s a, f s a = Except.ok (g s a)) (l : List α) (s : σ) :
    l.foldlM f s = Except.ok (l.foldl g s) := by
  induction l generalizing s with
  | nil => rfl
  | cons a l ih =>
    simp only [List.foldlM, List.foldl, h]
    exact ih (g s a)

theorem foldl_filter_join {α : Type} (p : α → Bool) (r : α → GoString) (l : List α)
    (m : GoString) :
    l.foldl (fun msg a => if p a = true then msg ++ r a else msg) m =
      m ++ ((l.filter p).map r).flatten := by
  induction l generalizing m with
  | nil => simp
  | cons a l ih =>
    by_cases hp : p a = true
    · simp [List.foldl, hp, ih, List.filter]
    · simp [List.foldl, hp, ih, List.filter]


/-! ## The loop bodies never panic and add the reference rendering -/

theorem lit_no_information :
    lit "\n*no information*" = lit "\n" ++ lit "*no information*" := by decide

theorem lit_no_info : lit "\n*no info*" = lit "\n" ++ lit "*no info*" := by decide

theorem queryFnStep_eq (env : Env) (st : GoString × GoString) (fn : Function) :
    queryFnStep env st fn = Except.ok
      (if (decide (fn.FnType = FunctionType.FnNormal) && env.EqualFold fn.Name st.1) = true
        then (fn.Name, st.2 ++ renderQueryFn fn) else st) := by
  unfold queryFnStep renderQueryFn
  by_cases h1 : fn.FnType = FunctionType.FnNormal <;>
    by_cases h2 : env.EqualFold fn.Name st.1 = true <;>
    cases hc : fn.Comments <;> by_cases he : fn.Example = [] <;>
    simp [h1, h2, hc, he, lit_no_information, firstLineOr, index, bind, Except.bind, pure, Except.pure]

theorem queryTypeStep_eq (env : Env) (name msg : GoString) (t : TypeEntry) :
    queryTypeStep env name msg t = Except.ok
      (if env.EqualFold name t.Name = true then msg ++ renderQueryType t else msg) := by
  unfold queryTypeStep renderQueryType
  by_cases h2 : env.EqualFold name t.Name = true <;> cases hc : t.Comments <;>
    simp [h2, hc, lit_no_information, firstLineOr, index, bind, Except.bind, pure, Except.pure]

theorem typeStep_eq (env : Env) (st : GoString × GoString) (t : TypeEntry) :
    typeStep env st t = Except.ok
      (if env.EqualFold t.Name st.1 = true then (t.Name, st.2 ++ renderType t) else st) := by
  unfold typeStep renderType
  by_cases h2 : env.EqualFold t.Name st.1 = true <;> cases hc : t.Comments <;>
    simp [h2, hc, lit_no_information, firstLineOr, index, bind, Except.bind, pure, Except.pure]

theorem globStep_eq (reT reN : Matcher) (msg : GoString) (fn : Function) :
    globStep reT reN msg fn = Except.ok
      (if (decide (fn.FnType = FunctionType.FnMethod) && reT fn.MethodOf && reN fn.Name) = true
        then msg ++ renderGlob fn else msg) := by
  unfold globStep renderGlob
  by_cases h1 : fn.FnType = FunctionType.FnMethod <;>
    by_cases h2 : reT fn.MethodOf = true <;> by_cases h3 : reN fn.Name = true <;>
    cases hc : fn.Comments <;>
    simp [h1, h2, h3, hc, firstLineOr, index, bind, Except.bind, pure, Except.pure]

theorem methodStep_eq (env : Env) (url t name : GoString) (st : GoString × GoString)
    (fn : Function) :
    methodStep env url t name st fn = Except.ok
      (if (decide (fn.FnType = FunctionType.FnMethod) && env.EqualFold fn.Name name &&
            env.EqualFold fn.MethodOf t) = true
        then (st.1 ++ renderMethod fn, url ++ lit "#" ++ fn.MethodOf ++ lit "." ++ fn.Name)
        else st) := by
  unfold methodStep renderMethod
  by_cases h1 : fn.FnType = FunctionType.FnMethod <;>
    by_cases h2 : env.EqualFold fn.Name name = true <;>
    by_cases h3 : env.EqualFold fn.MethodOf t = true <;>
    cases hc : fn.Comments <;> by_cases he : fn.Example = [] <;>
    simp [h1, h2, h3, hc, he, lit_no_info, firstLineOr, index, bind, Except.bind, pure, Except.pure]

theorem foldl_filter_last {α β : Type} (p : α → Bool) (r : α → GoString) (h : α → β)
    (l : List α) (m : GoString) (b : β) :
    l.foldl (fun st a => if p a = true then (st.1 ++ r a, h a) else st) (m, b) =
      (m ++ ((l.filter p).map r).flatten, ((l.filter p).getLast?.map h).getD b) := by
  induction l generalizing m b with
  | nil => simp
  | cons a l ih =>
    by_cases hp : p a = true
    · simp only [List.foldl, hp, if_true, ih, List.filter_cons_of_pos, List.map_cons,
        List.flatten_cons, List.append_assoc]
      rw [List.getLast?_cons]
      cases (l.filter p).getLast? <;> simp
    · simp only [List.foldl, hp, ih]
      simp [hp]

/-- A loop that renames its search key to the key of each hit finds the hits
of the first key, provided hits of a key have interchangeable keys. -/
theorem foldl_rename {α : Type} (key : α → GoString) (c : α → GoString → Bool)
    (r : α → GoString)
    (hc : ∀ a n, c a n = true → ∀ b, c b (key a) = c b n)
    (l : List α) (n m : GoString) :
    l.foldl (fun st a => if c a st.1 = true then (key a, st.2 ++ r a) else st) (n, m) =
      (((l.filter (fun a => c a n)).getLast?.map key).getD n,
        m ++ ((l.filter (fun a => c a n)).map r).flatten) := by
  induction l generalizing n m with
  | nil => simp
  | cons a l ih =>
    by_cases hp : c a n = true
    · have hfun : (fun b => c b (key a)) = (fun b => c b n) := funext (hc a n hp)
      simp only [List.foldl, hp, if_true, ih, hfun, List.filter_cons_of_pos, List.map_cons,
        List.flatten_cons, List.append_assoc]
      rw [List.getLast?_cons]
      cases (l.filter (fun b => c b n)).getLast? <;> simp
    · simp only [List.foldl, hp, ih]
      simp [hp]

/-! ## The loops as a whole -/

theorem globAssemble_eq (reT reN : Matcher) (doc : Doc) :
    globAssemble reT reN doc =
      Except.ok ((globMatches reT reN doc).map renderGlob).flatten := by
  unfold globAssemble globMatches
  rw [foldlM_pure _ _ (globStep_eq reT reN), foldl_filter_join]
  simp

theorem methodAssemble_eq (env : Env) (doc : Doc) (t name : GoString) :
    methodAssemble env doc t name =
      Except.ok (((methodMatches env doc t name).map renderMethod).flatten,
        ((methodMatches env doc t name).getLast?.map
          (fun fn => doc.URL ++ lit "#" ++ fn.MethodOf ++ lit "." ++ fn.Name)).getD []) := by
  unfold methodAssemble methodMatches
  rw [foldlM_pure _ _ (methodStep_eq env doc.URL t name), foldl_filter_last]
  simp

theorem typeAssemble_ok (env : Env) (doc : Doc) (name : GoString) :
    ∃ st, typeAssemble env doc name = Except.ok st := by
  unfold typeAssemble
  rw [foldlM_pure _ _ (typeStep_eq env)]
  exact ⟨_, rfl⟩

theorem queryAssemble_ok (env : Env) (doc : Doc) (name : GoString) :
    ∃ st, queryAssemble env doc name = Except.ok st := by
  unfold queryAssemble
  rw [foldlM_pure _ _ (queryFnStep_eq env)]
  simp only [bind, Except.bind]
  split
  · rw [foldlM_pure _ _ (queryTypeStep_eq env _)]
    exact ⟨_, rfl⟩
  · exact ⟨_, rfl⟩

/-! ## The handlers after their loops -/

theorem queryResponse_of_assemble (env : Env) (pkg name : GoString) (doc : Doc)
    (st : GoString × GoString)
    (hdoc : env.getDoc pkg = { doc := some doc, err := false })
    (hst : queryAssemble env doc name = Except.ok st) :
    queryResponse env pkg name = Except.ok
      (if st.2 = [] then
        errResponse
          (lit "No type or function `" ++ st.1 ++ lit "` found in package `" ++ pkg ++ lit "`")
      else
        { Title := pkg ++ lit ": " ++ st.1
          Description := cut noteWas st.2
          Footer := some { Text := doc.URL ++ lit "#" ++ st.1 } }) := by
  unfold queryResponse
  simp only [hdoc, deref, hst, bind, Except.bind, trimmed_eq_cut, pure, Except.pure]
  by_cases h : st.2 = [] <;> simp [h]

theorem typeResponse_of_assemble (env : Env) (pkg name : GoString) (doc : Doc)
    (st : GoString × GoString)
    (hdoc : env.getDoc pkg = { doc := some doc, err := false })
    (hst : typeAssemble env doc name = Except.ok st) :
    typeResponse env pkg name = Except.ok
      (if doc.Types.length = 0 then
        errResponse (lit "Package `" ++ pkg ++ lit "` seems to have no type definitions")
      else if st.2 = [] then
        errResponse (lit "Package `" ++ pkg ++ lit "` does not have type `" ++ st.1 ++ lit "`")
      else
        { Title := pkg ++ lit ": type " ++ st.1
          Description := cut noteIs st.2
          Footer := some { Text := doc.URL ++ lit "#" ++ st.1 } }) := by
  unfold typeResponse
  simp only [hdoc, deref, hst, bind, Except.bind, trimmed_eq_cut, pure, Except.pure]
  by_cases h0 : doc.Types = [] <;> by_cases h : st.2 = [] <;> simp [h0, h]

theorem methodResponse_of_assemble (env : Env) (pkg t name : GoString) (doc : Doc)
    (st : GoString × GoString)
    (ht : Contains t (lit "*") = false) (hn : Contains name (lit "*") = false)
    (hdoc : env.getDoc pkg = { doc := some doc, err := false })
    (hst : methodAssemble env doc t name = Except.ok st) :
    methodResponse env pkg t name = Except.ok
      (if doc.Functions.length = 0 then
        errResponse (lit "Package `" ++ pkg ++ lit "` seems to have no functions")
      else if st.1 = [] then
        errResponse
          (lit "Package `" ++ pkg ++ lit "` does not have `func(" ++ t ++ lit ") " ++ name ++
            lit "`")
      else
        { Title := pkg ++ lit ": func(" ++ t ++ lit ") " ++ name
          Description := cut noteIs st.1
          Footer := some { Text := st.2 } }) := by
  unfold methodResponse
  simp only [ht, hn, hdoc, deref, hst, bind, Except.bind, trimmed_eq_cut, pure, Except.pure]
  by_cases h0 : doc.Functions = [] <;> by_cases h : st.1 = [] <;> simp [h0, h]

theorem methodGlobResponse_of_assemble (env : Env) (pkg t name : GoString) (doc : Doc)
    (reT reN : Matcher) (msg : GoString)
    (hT : env.Compile t = Except.ok reT) (hN : env.Compile name = Except.ok reN)
    (hdoc : env.getDoc pkg = { doc := some doc, err := false })
    (hmsg : globAssemble reT reN doc = Except.ok msg) :
    methodGlobResponse env pkg t name = Except.ok
      (if doc.Functions.length = 0 ∨ doc.Types.length = 0 then
        errResponse
          (lit "No results found matching the expression `" ++ t ++ lit "." ++ name ++
            lit "` in package `" ++ pkg ++ lit "`")
      else if msg = [] then
        errResponse
          (lit "No results found matching the expression `" ++ t ++ lit "." ++ name ++
            lit "` in package `" ++ pkg ++ lit "`")
      else
        { Title := lit "Matches"
          Description := cut noteWas msg
          Footer := some { Text := doc.URL } }) := by
  unfold methodGlobResponse
  simp only [hT, hN, hdoc, deref, hmsg, bind, Except.bind, trimmed_eq_cut, pure, Except.pure]
  by_cases h0 : doc.Functions = [] <;> by_cases h1 : doc.Types = [] <;>
    by_cases h : msg = [] <;> simp [h0, h1, h]

/-! ## C1: the length of a cut description -/

theorem cut_length_long (note msg : GoString) (h : 2000 < msg.length) :
    (cut note msg).length = 1950 + note.length := by
  unfold cut
  simp only [gt_iff_lt, h, if_true, List.length_append, List.length_take]
  omega

theorem length_noteWas : noteWas.length = 63 := by decide

theorem length_noteIs : noteIs.length = 62 := by decide

theorem assemble_docWithSignature (sig : GoString) :
    queryAssemble (envOf (lit "p") (docWithSignature sig)) (docWithSignature sig) (lit "f") =
      Except.ok (lit "f", lit "`" ++ sig ++ lit "`" ++ lit "\n*no information*") ∧
    typeAssemble (envOf (lit "p") (docWithSignature sig)) (docWithSignature sig) (lit "T") =
      Except.ok (lit "T", lit "```go\n" ++ sig ++ lit "\n```" ++ lit "\n*no information*") ∧
    methodAssemble (envOf (lit "p") (docWithSignature sig)) (docWithSignature sig) (lit "T")
        (lit "m") =
      Except.ok (lit "`" ++ sig ++ lit "`" ++ lit "\n*no info*", lit "https://pkg.go.dev/p#T.m") ∧
    globAssemble (globMatch (lit "*")) (globMatch (lit "*")) (docWithSignature sig) =
      Except.ok (lit "`" ++ sig ++ lit "`:\n" ++ lit "*no information available*") :=
  ⟨rfl, rfl, rfl, rfl⟩

theorem long_around (a b sig : GoString) (h : sig.length = 2001) :
    2000 < (a ++ (sig ++ b)).length := by
  simp only [List.length_append, h]
  omega

theorem envOf_getDoc (pkg : GoString) (doc : Doc) :
    (envOf pkg doc).getDoc pkg = { doc := some doc, err := false } := by
  simp [envOf]

theorem lengths_docWithSignature (sig : GoString) (h : sig.length = 2001) :
    (queryResponse (envOf (lit "p") (docWithSignature sig)) (lit "p") (lit "f")).map
        (fun e => e.Description.length) = Except.ok 2013 ∧
    (typeResponse (envOf (lit "p") (docWithSignature sig)) (lit "p") (lit "T")).map
        (fun e => e.Description.length) = Except.ok 2012 ∧
    (methodResponse (envOf (lit "p") (docWithSignature sig)) (lit "p") (lit "T") (lit "m")).map
        (fun e => e.Description.length) = Except.ok 2012 ∧
    (methodGlobResponse (envOf (lit "p") (docWithSignature sig)) (lit "p") (lit "*")
        (lit "*")).map (fun e => e.Description.length) = Except.ok 2013 := by
  obtain ⟨hq, ht, hm, hg⟩ := assemble_docWithSignature sig
  have hs : sig ≠ [] := by
    intro h0
    simp [h0] at h
  refine ⟨?_, ?_, ?_, ?_⟩
  · rw [queryResponse_of_assemble _ _ _ _ _ (envOf_getDoc _ _) hq]
    simp [Except.map, hs]
    rw [cut_length_long _ _ (long_around _ _ _ h), length_noteWas]
  · rw [typeResponse_of_assemble _ _ _ _ _ (envOf_getDoc _ _) ht]
    simp [Except.map, hs, docWithSignature]
    rw [cut_length_long _ _ (long_around _ _ _ h), length_noteIs]
  · rw [methodResponse_of_assemble _ _ _ _ _ _ (by decide) (by decide) (envOf_getDoc _ _) hm]
    simp [Except.map, hs, docWithSignature]
    rw [cut_length_long _ _ (long_around _ _ _ h), length_noteIs]
  · rw [methodGlobResponse_of_assemble _ _ _ _ _ _ _ _ rfl rfl (envOf_getDoc _ _) hg]
    simp [Except.map, hs, docWithSignature]
    rw [cut_length_long _ _ (long_around _ _ _ h), length_noteWas]

/-- C1 (evaluation of the code): on the index `longDoc` every lookup path cuts
its text and returns a description longer than 2000 bytes: 1950 bytes of text
and the notice of 63 (`queryResponse`, `methodGlobResponse`) or 62
(`typeResponse`, `methodResponse`) bytes, 2013 or 2012 bytes in all. -/
theorem trimmed_description_exceeds_limit :
    (queryResponse (envOf (lit "p") longDoc) (lit "p") (lit "f")).map
        (fun e => e.Description.length) = Except.ok 2013 ∧
    (typeResponse (envOf (lit "p") longDoc) (lit "p") (lit "T")).map
        (fun e => e.Description.length) = Except.ok 2012 ∧
    (methodResponse (envOf (lit "p") longDoc) (lit "p") (lit "T") (lit "m")).map
        (fun e => e.Description.length) = Except.ok 2012 ∧
    (methodGlobResponse (envOf (lit "p") longDoc) (lit "p") (lit "*") (lit "*")).map
        (fun e => e.Description.length) = Except.ok 2013 :=
  lengths_docWithSignature (List.replicate 2001 97) (List.length_replicate 2001 97)

/-! ## Matching under case folding -/

theorem asciiEqualFold_laws : FoldLaws asciiEqualFold := by
  constructor
  · intro a b h
    simp only [asciiEqualFold, decide_eq_true_eq] at h ⊢
    exact h.symm
  · intro a b c h1 h2
    simp only [asciiEqualFold, decide_eq_true_eq] at h1 h2 ⊢
    exact h1.trans h2

theorem FoldLaws.congr_right {E : GoString → GoString → Bool} (hE : FoldLaws E)
    {a b : GoString} (h : E a b = true) (x : GoString) : E x a = E x b := by
  cases h1 : E x a with
  | true => exact (hE.2 x a b h1 h).symm
  | false =>
    cases h2 : E x b with
    | false => rfl
    | true =>
      have := hE.2 x b a h2 (hE.1 a b h)
      rw [h1] at this
      exact this

theorem FoldLaws.congr_left {E : GoString → GoString → Bool} (hE : FoldLaws E)
    {a b : GoString} (h : E a b = true) (x : GoString) : E a x = E b x := by
  cases h1 : E a x with
  | true => exact (hE.2 b a x (hE.1 a b h) h1).symm
  | false =>
    cases h2 : E b x with
    | false => rfl
    | true =>
      have := hE.2 a b x h h2
      rw [h1] at this
      exact this

theorem lit_tick : lit "`" = [96] := by decide

theorem lit_fence : lit "```go\n" = [96, 96, 96, 103, 111, 10] := by decide

theorem renderQueryFn_ne_nil (fn : Function) : renderQueryFn fn ≠ [] := by
  simp [renderQueryFn, lit_tick]

theorem renderMethod_ne_nil (fn : Function) : renderMethod fn ≠ [] := by
  simp [renderMethod, lit_tick]

theorem renderGlob_ne_nil (fn : Function) : renderGlob fn ≠ [] := by
  simp [renderGlob, lit_tick]

theorem renderQueryType_ne_nil (t : TypeEntry) : renderQueryType t ≠ [] := by
  simp [renderQueryType, lit_fence]

theorem renderType_ne_nil (t : TypeEntry) : renderType t ≠ [] := by
  simp [renderType, lit_fence]

theorem flatten_map_eq_nil {α : Type} (r : α → GoString) (hr : ∀ a, r a ≠ []) (l : List α) :
    (l.map r).flatten = [] ↔ l = [] := by
  cases l with
  | nil => simp
  | cons a l => simp [hr a]

theorem queryAssemble_eq (env : Env) (hE : FoldLaws env.EqualFold) (doc : Doc)
    (name : GoString) :
    queryAssemble env doc name = Except.ok
      (if plainMatches env doc name = [] then
        (name, ((typeMatches env doc name).map renderQueryType).flatten)
      else
        (((plainMatches env doc name).getLast?.map Function.Name).getD name,
          ((plainMatches env doc name).map renderQueryFn).flatten)) := by
  have hc : ∀ (a : Function) (n : GoString),
      (decide (a.FnType = FunctionType.FnNormal) && env.EqualFold a.Name n) = true →
      ∀ b : Function,
        (decide (b.FnType = FunctionType.FnNormal) && env.EqualFold b.Name (Function.Name a)) =
          (decide (b.FnType = FunctionType.FnNormal) && env.EqualFold b.Name n) := by
    intro a n h b
    have ha : env.EqualFold a.Name n = true := by
      simp only [Bool.and_eq_true] at h
      exact h.2
    rw [hE.congr_right ha b.Name]
  unfold queryAssemble
  rw [foldlM_pure _ _ (queryFnStep_eq env)]
  rw [foldl_rename Function.Name
    (fun fn n => decide (fn.FnType = FunctionType.FnNormal) && env.EqualFold fn.Name n)
    renderQueryFn hc]
  simp only [bind, Except.bind, List.nil_append]
  by_cases hfs : plainMatches env doc name = []
  · have hfs2 := hfs
    unfold plainMatches at hfs2
    simp only [hfs, hfs2, if_true, List.map_nil, List.flatten_nil, List.getLast?_nil,
      Option.map_none', Option.getD_none]
    rw [foldlM_pure _ _ (queryTypeStep_eq env name), foldl_filter_join]
    simp [typeMatches, pure, Except.pure]
  · have hne : ((plainMatches env doc name).map renderQueryFn).flatten ≠ [] := by
      rw [Ne, flatten_map_eq_nil _ renderQueryFn_ne_nil]
      exact hfs
    have hne2 := hne
    unfold plainMatches at hne2
    simp only [hfs, hne2, if_false]
    rfl

theorem typeAssemble_eq (env : Env) (hE : FoldLaws env.EqualFold) (doc : Doc)
    (name : GoString) :
    typeAssemble env doc name = Except.ok
      ((((doc.Types.filter (fun t => env.EqualFold t.Name name)).getLast?.map
          TypeEntry.Name).getD name),
        ((doc.Types.filter (fun t => env.EqualFold t.Name name)).map renderType).flatten) := by
  have hc : ∀ (a : TypeEntry) (n : GoString), env.EqualFold a.Name n = true →
      ∀ b : TypeEntry, env.EqualFold b.Name (TypeEntry.Name a) = env.EqualFold b.Name n := by
    intro a n h b
    exact hE.congr_right h b.Name
  unfold typeAssemble
  rw [foldlM_pure _ _ (typeStep_eq env)]
  rw [foldl_rename TypeEntry.Name (fun t n => env.EqualFold t.Name n) renderType hc]
  simp

set_option maxRecDepth 8192

/-! ## C2: the truncation policy -/

theorem length_accents (n : Nat) : (accents n).length = 2 * n := by
  induction n with
  | zero => rfl
  | succ n ih =>
    simp only [accents, List.length_cons, ih]
    omega

theorem charCount_accents (n : Nat) : charCount (accents n) = n := by
  induction n with
  | zero => rfl
  | succ n ih =>
    unfold charCount at ih ⊢
    rw [accents, List.countP_cons, List.countP_cons, ih]
    have h1 : (!(decide ((128 : UInt8) ≤ 195) && decide ((195 : UInt8) < 192))) = true := by
      decide
    have h2 : (!(decide ((128 : UInt8) ≤ 169) && decide ((169 : UInt8) < 192))) = false := by
      decide
    simp only [h1, h2, if_true]
    simp

theorem accents_even (n k i : Nat) (h : k < n) (hi : i = 2 * k) :
    (accents n)[i]? = some 195 := by
  subst hi
  induction n generalizing k with
  | zero => omega
  | succ n ih =>
    cases k with
    | zero => rfl
    | succ k =>
      have : 2 * (k + 1) = 2 * k + 1 + 1 := by omega
      rw [this, accents, List.getElem?_cons_succ, List.getElem?_cons_succ]
      exact ih k (by omega)

theorem charCount_append (a b : GoString) : charCount (a ++ b) = charCount a + charCount b := by
  unfold charCount
  exact List.countP_append _ _ _

theorem long_of_long (a b sig : GoString) (h : 2000 < sig.length) :
    2000 < (a ++ (sig ++ b)).length := by
  simp only [List.length_append]
  omega

theorem cut_query_docWithSignature (sig : GoString) (h : 2000 < sig.length) :
    queryResponse (envOf (lit "p") (docWithSignature sig)) (lit "p") (lit "f") = Except.ok
      { Title := lit "p" ++ lit ": " ++ lit "f"
        Description :=
          (lit "`" ++ (sig ++ (lit "`" ++ lit "\n*no information*"))).take 1950 ++ noteWas
        Footer := some { Text := (docWithSignature sig).URL ++ lit "#" ++ lit "f" } } := by
  have hq := (assemble_docWithSignature sig).1
  have hne : ¬ (lit "`" ++ (sig ++ (lit "`" ++ lit "\n*no information*")) = []) := by
    simp [lit_tick]
  rw [queryResponse_of_assemble _ _ _ _ _ (envOf_getDoc _ _) hq]
  simp only [hne, if_false, cut, List.append_assoc, gt_iff_lt, long_of_long _ _ _ h, if_true]

theorem cut_counts_generic (sig : GoString) (hlen : sig.length = 2002)
    (hcc : charCount sig = 1001) (h48 : sig[1948]? = some 195) :
    (queryAssemble (envOf (lit "p") (docWithSignature sig)) (docWithSignature sig)
        (lit "f")).map (fun st => (charCount st.2, st.2.length)) = Except.ok (1020, 2021) ∧
    (queryResponse (envOf (lit "p") (docWithSignature sig)) (lit "p") (lit "f")).map
        (fun e => (e.Description.length, e.Description[1949]?, e.Description[1950]?)) =
      Except.ok (2013, some 195, some 10) ∧
    (queryResponse (envOf (lit "p") (docWithSignature sig)) (lit "p") (lit "f")).map
        (fun e => e.Description) ≠
      (queryAssemble (envOf (lit "p") (docWithSignature sig)) (docWithSignature sig)
        (lit "f")).map Prod.snd := by
  have hlong : 2000 < sig.length := by omega
  have hq := (assemble_docWithSignature sig).1
  have hr := cut_query_docWithSignature sig hlong
  have hmsg : (lit "`" ++ (sig ++ (lit "`" ++ lit "\n*no information*"))).length = 2021 := by
    simp only [List.length_append, hlen]
    rfl
  have htake : ((lit "`" ++ (sig ++ (lit "`" ++ lit "\n*no information*"))).take
      1950).length = 1950 := by
    rw [List.length_take, hmsg]
    rfl
  have hdesc : ((lit "`" ++ (sig ++ (lit "`" ++ lit "\n*no information*"))).take 1950 ++
      noteWas).length = 2013 := by
    rw [List.length_append, htake, length_noteWas]
  have h1949 : ((lit "`" ++ (sig ++ (lit "`" ++ lit "\n*no information*"))).take 1950 ++
      noteWas)[1949]? = some 195 := by
    rw [List.getElem?_append_left (by rw [htake]; omega),
      List.getElem?_take_of_lt (by omega), lit_tick]
    show (96 :: (sig ++ (lit "`" ++ lit "\n*no information*")))[1948 + 1]? = some 195
    rw [List.getElem?_cons_succ, List.getElem?_append_left (by rw [hlen]; omega)]
    exact h48
  have h1950 : ((lit "`" ++ (sig ++ (lit "`" ++ lit "\n*no information*"))).take 1950 ++
      noteWas)[1950]? = some 10 := by
    rw [List.getElem?_append_right (by rw [htake]), htake]
    rfl
  refine ⟨?_, ?_, ?_⟩
  · rw [hq]
    simp only [Except.map, List.length_append, hlen, charCount_append, hcc]
    rfl
  · rw [hr]
    simp only [Except.map, hdesc, h1949, h1950]
  · rw [hr, hq]
    simp only [Except.map, List.append_assoc]
    intro heq
    have h2 := congrArg (fun r => match r with
      | Except.ok (x : GoString) => x.length
      | Except.error _ => 0) heq
    simp only [hdesc, hmsg] at h2
    omega

/-- C2 (as stated, refuted): the plain function `f` of `accentDoc` has a
signature of 1001 characters `é`. The text assembled for it has 1020
characters, which is not more than 2000, and 2021 bytes. The description is
not that text: it is cut after 1950 bytes and followed by the notice, 2013
bytes in all, and the cut falls inside a character, since byte 1949 is the
first byte `0xC3` of an `é` and byte 1950 is the line break of the notice. -/
theorem cut_counts_bytes_not_characters :
    (queryAssemble (envOf (lit "p") accentDoc) accentDoc (lit "f")).map
        (fun st => (charCount st.2, st.2.length)) = Except.ok (1020, 2021) ∧
    (queryResponse (envOf (lit "p") accentDoc) (lit "p") (lit "f")).map
        (fun e => (e.Description.length, e.Description[1949]?, e.Description[1950]?)) =
      Except.ok (2013, some 195, some 10) ∧
    (queryResponse (envOf (lit "p") accentDoc) (lit "p") (lit "f")).map
        (fun e => e.Description) ≠
      (queryAssemble (envOf (lit "p") accentDoc) accentDoc (lit "f")).map Prod.snd :=
  cut_counts_generic (accents 1001) (by rw [length_accents 1001])
    (by rw [charCount_accents 1001]) (accents_even 1001 974 1948 (by omega) (by omega))

/-- C2 (amended): on every lookup path the emitted description is the assembled
text of the matched entries when that text has at most 2000 bytes, and its
first 1950 bytes followed by the notice of the path when it has more; the
length and the cut are counted in bytes, not in characters. The assembled text
is the value of `msg` after the loops of the handler (which never panic); when
it is empty nothing matched and the handler answers with an error block, and
`methodGlobResponse` runs its loop only for an index with at least one type. -/
theorem description_is_cut_of_assembled (env : Env) (pkg t name : GoString) (doc : Doc)
    (hdoc : env.getDoc pkg = { doc := some doc, err := false }) :
    (∃ st, queryAssemble env doc name = Except.ok st ∧
      (st.2 ≠ [] → (queryResponse env pkg name).map (fun e => e.Description) =
        Except.ok (if st.2.length > 2000 then st.2.take 1950 ++ noteWas else st.2))) ∧
    (∃ st, typeAssemble env doc name = Except.ok st ∧
      (st.2 ≠ [] → (typeResponse env pkg name).map (fun e => e.Description) =
        Except.ok (if st.2.length > 2000 then st.2.take 1950 ++ noteIs else st.2))) ∧
    (∃ st, methodAssemble env doc t name = Except.ok st ∧
      (Contains t (lit "*") = false → Contains name (lit "*") = false → st.1 ≠ [] →
        (methodResponse env pkg t name).map (fun e => e.Description) =
          Except.ok (if st.1.length > 2000 then st.1.take 1950 ++ noteIs else st.1))) ∧
    (∀ reT reN, env.Compile t = Except.ok reT → env.Compile name = Except.ok reN →
      ∃ msg, globAssemble reT reN doc = Except.ok msg ∧
        (doc.Types ≠ [] → msg ≠ [] →
          (methodGlobResponse env pkg t name).map (fun e => e.Description) =
            Except.ok (if msg.length > 2000 then msg.take 1950 ++ noteWas else msg))) := by
  refine ⟨?_, ?_, ?_, ?_⟩
  · obtain ⟨st, hst⟩ := queryAssemble_ok env doc name
    refine ⟨st, hst, fun hne => ?_⟩
    rw [queryResponse_of_assemble env pkg name doc st hdoc hst]
    simp [Except.map, hne, cut]
  · obtain ⟨st, hst⟩ := typeAssemble_ok env doc name
    refine ⟨st, hst, fun hne => ?_⟩
    have hty : doc.Types ≠ [] := by
      intro h0
      unfold typeAssemble at hst
      rw [h0] at hst
      cases hst
      exact hne rfl
    rw [typeResponse_of_assemble env pkg name doc st hdoc hst]
    simp [Except.map, hne, hty, cut]
  · refine ⟨_, methodAssemble_eq env doc t name, fun ht hn hne => ?_⟩
    have hfn : doc.Functions ≠ [] := by
      intro h0
      apply hne
      simp [methodMatches, h0]
    rw [methodResponse_of_assemble env pkg t name doc _ ht hn hdoc
      (methodAssemble_eq env doc t name)]
    simp only [ne_eq] at hne
    simp [Except.map, hne, hfn, cut]
  · intro reT reN hT hN
    refine ⟨_, globAssemble_eq reT reN doc, fun hty hne => ?_⟩
    have hfn : doc.Functions ≠ [] := by
      intro h0
      apply hne
      simp [globMatches, h0]
    rw [methodGlobResponse_of_assemble env pkg t name doc reT reN _ hT hN hdoc
      (globAssemble_eq reT reN doc)]
    simp only [ne_eq] at hne
    simp [Except.map, hne, hfn, hty, cut]

/-- C2 (amended) at work: on the index `stringsDoc` the short texts of `Join`
and of `Builder` are emitted unchanged; on the index `longDoc` the text of `f`,
2020 bytes long, is emitted as its first 1950 bytes followed by the notice. -/
theorem description_is_cut_of_assembled_witness :
    (queryResponse stringsEnv (lit "strings") (lit "join")).map (fun e => e.Description) =
      Except.ok
        (lit "`func Join(elems []string, sep string) string`\nJoin concatenates the elements.") ∧
    (typeResponse stringsEnv (lit "strings") (lit "builder")).map (fun e => e.Description) =
      Except.ok (lit "```go\ntype Builder struct\n```\nA Builder is used to build a string.") ∧
    (queryResponse (envOf (lit "p") longDoc) (lit "p") (lit "f")).map (fun e => e.Description) =
      Except.ok ((lit "`" ++ List.replicate 2001 97 ++ lit "`" ++ lit "\n*no information*").take
        1950 ++ noteWas) := by
  have key : ∀ sig : GoString, 2000 < sig.length →
      (queryResponse (envOf (lit "p") (docWithSignature sig)) (lit "p") (lit "f")).map
          (fun e => e.Description) =
        Except.ok ((lit "`" ++ sig ++ lit "`" ++ lit "\n*no information*").take 1950 ++
          noteWas) := by
    intro sig hlen
    obtain ⟨st, hst, hq⟩ := (description_is_cut_of_assembled
      (envOf (lit "p") (docWithSignature sig)) (lit "p") (lit "T") (lit "f")
      (docWithSignature sig) (envOf_getDoc _ _)).1
    rw [(assemble_docWithSignature sig).1] at hst
    cases hst
    have hne : lit "`" ++ sig ++ lit "`" ++ lit "\n*no information*" ≠ [] := by
      simp [lit_tick]
    have hl : 2000 < (lit "`" ++ sig ++ lit "`" ++ lit "\n*no information*").length := by
      simp only [List.length_append]
      omega
    have h := hq hne
    simp only [gt_iff_lt, hl, if_true] at h
    exact h
  have h := description_is_cut_of_assembled stringsEnv (lit "strings") (lit "Builder")
    (lit "join") stringsDoc rfl
  have h2 := description_is_cut_of_assembled stringsEnv (lit "strings") (lit "Builder")
    (lit "builder") stringsDoc rfl
  obtain ⟨st, hst, hq⟩ := h.1
  obtain ⟨st2, hst2, hq2⟩ := h2.2.1
  have e1 : queryAssemble stringsEnv stringsDoc (lit "join") = Except.ok (lit "Join",
      lit "`func Join(elems []string, sep string) string`\nJoin concatenates the elements.") := by
    decide
  have e2 : typeAssemble stringsEnv stringsDoc (lit "builder") = Except.ok (lit "Builder",
      lit "```go\ntype Builder struct\n```\nA Builder is used to build a string.") := by
    decide
  rw [e1] at hst
  rw [e2] at hst2
  cases hst
  cases hst2
  exact ⟨(hq (by decide)).trans (by decide), (hq2 (by decide)).trans (by decide),
    key (List.replicate 2001 97) (by rw [List.length_replicate]; omega)⟩

/-! ## C3: what the symbol lookup renders -/

/-- C3: for every index and query name, the text assembled by `queryResponse`
is the concatenation, in the order of the index, of the renderings of exactly
the Plain-kind functions whose name equals the query name under `EqualFold`;
when there is none it is the concatenation, in order, of the renderings of
exactly the types whose name equals the query name. The matches are those of
the name the caller gave, although the loop replaces `name` by the stored name
of every hit. The description is that text after the truncation step, or the
no-match error text when neither a function nor a type matches. -/
theorem queryResponse_renders_matches (env : Env) (hE : FoldLaws env.EqualFold)
    (pkg name : GoString) (doc : Doc)
    (hdoc : env.getDoc pkg = { doc := some doc, err := false }) :
    (queryAssemble env doc name).map Prod.snd = Except.ok
      (if plainMatches env doc name ≠ [] then
        ((plainMatches env doc name).map renderQueryFn).flatten
      else ((typeMatches env doc name).map renderQueryType).flatten) ∧
    (queryResponse env pkg name).map (fun e => e.Description) = Except.ok
      (if plainMatches env doc name ≠ [] then
        cut noteWas ((plainMatches env doc name).map renderQueryFn).flatten
      else if typeMatches env doc name ≠ [] then
        cut noteWas ((typeMatches env doc name).map renderQueryType).flatten
      else lit "No type or function `" ++ name ++ lit "` found in package `" ++ pkg ++ lit "`") := by
  have hq := queryAssemble_eq env hE doc name
  constructor
  · rw [hq]
    by_cases hfs : plainMatches env doc name = [] <;> simp [Except.map, hfs]
  · rw [queryResponse_of_assemble env pkg name doc _ hdoc hq]
    by_cases hfs : plainMatches env doc name = []
    · by_cases hts : typeMatches env doc name = []
      · simp [Except.map, hfs, hts, errResponse]
      · have hne : ((typeMatches env doc name).map renderQueryType).flatten ≠ [] := by
          rw [Ne, flatten_map_eq_nil _ renderQueryType_ne_nil]
          exact hts
        simp only [ne_eq] at hne
        simp [Except.map, hfs, hts, hne]
    · have hne : ((plainMatches env doc name).map renderQueryFn).flatten ≠ [] := by
        rw [Ne, flatten_map_eq_nil _ renderQueryFn_ne_nil]
        exact hfs
      simp only [ne_eq] at hne
      simp [Except.map, hfs, hne]

/-- C3 at work on the index `stringsDoc`: the query `JOIN` renders the plain
function `Join`, and the query `builder`, which no plain function answers,
renders the type `Builder`. -/
theorem queryResponse_renders_matches_witness :
    (queryResponse stringsEnv (lit "strings") (lit "JOIN")).map (fun e => e.Description) =
      Except.ok
        (lit "`func Join(elems []string, sep string) string`\nJoin concatenates the elements.") ∧
    (queryResponse stringsEnv (lit "strings") (lit "builder")).map (fun e => e.Description) =
      Except.ok
        (lit "```go\ntype Builder struct\n```\nA Builder is used to build a string.") :=
  ⟨(queryResponse_renders_matches stringsEnv asciiEqualFold_laws (lit "strings") (lit "JOIN")
      stringsDoc rfl).2.trans (by decide),
    (queryResponse_renders_matches stringsEnv asciiEqualFold_laws (lit "strings") (lit "builder")
      stringsDoc rfl).2.trans (by decide)⟩

/-! ## C4: queries that differ only by case -/

theorem plainMatches_congr (env : Env) (hE : FoldLaws env.EqualFold) (doc : Doc)
    {n1 n2 : GoString} (h : env.EqualFold n1 n2 = true) :
    plainMatches env doc n1 = plainMatches env doc n2 := by
  unfold plainMatches
  congr 1
  funext fn
  rw [hE.congr_right h fn.Name]

theorem typeMatches_congr (env : Env) (hE : FoldLaws env.EqualFold) (doc : Doc)
    {n1 n2 : GoString} (h : env.EqualFold n1 n2 = true) :
    typeMatches env doc n1 = typeMatches env doc n2 := by
  unfold typeMatches
  congr 1
  funext t
  rw [hE.congr_left h t.Name]

theorem methodMatches_congr (env : Env) (hE : FoldLaws env.EqualFold) (doc : Doc)
    {t1 t2 n1 n2 : GoString} (ht : env.EqualFold t1 t2 = true)
    (hn : env.EqualFold n1 n2 = true) :
    methodMatches env doc t1 n1 = methodMatches env doc t2 n2 := by
  unfold methodMatches
  congr 1
  funext fn
  rw [hE.congr_right hn fn.Name, hE.congr_right ht fn.MethodOf]

theorem queryResponse_eq (env : Env) (hE : FoldLaws env.EqualFold) (pkg name : GoString)
    (doc : Doc) (hdoc : env.getDoc pkg = { doc := some doc, err := false }) :
    queryResponse env pkg name = Except.ok
      (if plainMatches env doc name ≠ [] then
        { Title := pkg ++ lit ": " ++
            ((plainMatches env doc name).getLast?.map Function.Name).getD name
          Description := cut noteWas ((plainMatches env doc name).map renderQueryFn).flatten
          Footer := some { Text := doc.URL ++ lit "#" ++
            ((plainMatches env doc name).getLast?.map Function.Name).getD name } }
      else if typeMatches env doc name ≠ [] then
        { Title := pkg ++ lit ": " ++ name
          Description := cut noteWas ((typeMatches env doc name).map renderQueryType).flatten
          Footer := some { Text := doc.URL ++ lit "#" ++ name } }
      else
        errResponse
          (lit "No type or function `" ++ name ++ lit "` found in package `" ++ pkg ++
            lit "`")) := by
  rw [queryResponse_of_assemble env pkg name doc _ hdoc (queryAssemble_eq env hE doc name)]
  by_cases hfs : plainMatches env doc name = []
  · by_cases hts : typeMatches env doc name = []
    · simp [hfs, hts]
    · have hne : ((typeMatches env doc name).map renderQueryType).flatten ≠ [] := by
        rw [Ne, flatten_map_eq_nil _ renderQueryType_ne_nil]
        exact hts
      simp only [ne_eq] at hne
      simp [hfs, hts, hne]
  · have hne : ((plainMatches env doc name).map renderQueryFn).flatten ≠ [] := by
      rw [Ne, flatten_map_eq_nil _ renderQueryFn_ne_nil]
      exact hfs
    simp only [ne_eq] at hne
    simp [hfs, hne]

theorem methodResponse_eq (env : Env) (pkg t name : GoString) (doc : Doc)
    (ht : Contains t (lit "*") = false) (hn : Contains name (lit "*") = false)
    (hdoc : env.getDoc pkg = { doc := some doc, err := false }) :
    methodResponse env pkg t name = Except.ok
      (if methodMatches env doc t name ≠ [] then
        { Title := pkg ++ lit ": func(" ++ t ++ lit ") " ++ name
          Description := cut noteIs ((methodMatches env doc t name).map renderMethod).flatten
          Footer := some { Text := ((methodMatches env doc t name).getLast?.map
            (fun fn => doc.URL ++ lit "#" ++ fn.MethodOf ++ lit "." ++ fn.Name)).getD [] } }
      else if doc.Functions = [] then
        errResponse (lit "Package `" ++ pkg ++ lit "` seems to have no functions")
      else
        errResponse
          (lit "Package `" ++ pkg ++ lit "` does not have `func(" ++ t ++ lit ") " ++ name ++
            lit "`")) := by
  rw [methodResponse_of_assemble env pkg t name doc _ ht hn hdoc
    (methodAssemble_eq env doc t name)]
  by_cases hms : methodMatches env doc t name = []
  · by_cases hfn : doc.Functions = [] <;> simp [hms, hfn]
  · have hne : ((methodMatches env doc t name).map renderMethod).flatten ≠ [] := by
      rw [Ne, flatten_map_eq_nil _ renderMethod_ne_nil]
      exact hms
    have hfn : doc.Functions ≠ [] := by
      intro h0
      apply hms
      simp [methodMatches, h0]
    simp only [ne_eq] at hne
    simp [hms, hne, hfn]

/-- C4 (as stated, refuted): `foo` and `FOO` are equal under case folding, no
entry of `stringsDoc` has that name, and the two error descriptions quote the
query as typed, so they differ. -/
theorem case_variants_differ_without_match :
    asciiEqualFold (lit "foo") (lit "FOO") = true ∧
    (queryResponse stringsEnv (lit "strings") (lit "foo")).map (fun e => e.Description) =
      Except.ok (lit "No type or function `foo` found in package `strings`") ∧
    (queryResponse stringsEnv (lit "strings") (lit "FOO")).map (fun e => e.Description) =
      Except.ok (lit "No type or function `FOO` found in package `strings`") ∧
    (queryResponse stringsEnv (lit "strings") (lit "foo")).map (fun e => e.Description) ≠
      (queryResponse stringsEnv (lit "strings") (lit "FOO")).map (fun e => e.Description) := by
  decide

/-- C4 (amended): for two query names equal under `EqualFold`, `queryResponse`
gives the same description for both whenever some Plain function or some type
matches; for two wildcard-free pairs that are component-wise equal under
`EqualFold`, `methodResponse` gives the same description and the same footer
for both whenever some method matches. -/
theorem case_variants_agree_on_match (env : Env) (hE : FoldLaws env.EqualFold)
    (pkg : GoString) (doc : Doc)
    (hdoc : env.getDoc pkg = { doc := some doc, err := false }) :
    (∀ n1 n2, env.EqualFold n1 n2 = true →
      (plainMatches env doc n1 ≠ [] ∨ typeMatches env doc n1 ≠ []) →
      (queryResponse env pkg n1).map (fun e => e.Description) =
        (queryResponse env pkg n2).map (fun e => e.Description)) ∧
    (∀ t1 n1 t2 n2, Contains t1 (lit "*") = false → Contains n1 (lit "*") = false →
      Contains t2 (lit "*") = false → Contains n2 (lit "*") = false →
      env.EqualFold t1 t2 = true → env.EqualFold n1 n2 = true →
      methodMatches env doc t1 n1 ≠ [] →
      (methodResponse env pkg t1 n1).map (fun e => (e.Description, e.Footer)) =
        (methodResponse env pkg t2 n2).map (fun e => (e.Description, e.Footer))) := by
  constructor
  · intro n1 n2 h hm
    rw [queryResponse_eq env hE pkg n1 doc hdoc, queryResponse_eq env hE pkg n2 doc hdoc,
      ← plainMatches_congr env hE doc h, ← typeMatches_congr env hE doc h]
    by_cases hfs : plainMatches env doc n1 = []
    · have hts : typeMatches env doc n1 ≠ [] := by
        rcases hm with hm | hm
        · exact absurd hfs hm
        · exact hm
      simp only [ne_eq] at hts
      simp [Except.map, hfs, hts]
    · simp [Except.map, hfs]
  · intro t1 n1 t2 n2 h1 h2 h3 h4 ht hn hm
    rw [methodResponse_eq env pkg t1 n1 doc h1 h2 hdoc,
      methodResponse_eq env pkg t2 n2 doc h3 h4 hdoc, ← methodMatches_congr env hE doc ht hn]
    simp only [ne_eq] at hm
    simp [Except.map, hm]

/-- C4 (amended) at work on the index `stringsDoc`: `join` and `JOIN` give the
same description, and so do `builder.writestring` and `BUILDER.WRITESTRING`,
with the same footer. -/
theorem case_variants_agree_on_match_witness :
    (queryResponse stringsEnv (lit "strings") (lit "join")).map (fun e => e.Description) =
      (queryResponse stringsEnv (lit "strings") (lit "JOIN")).map (fun e => e.Description) ∧
    (methodResponse stringsEnv (lit "strings") (lit "builder") (lit "writestring")).map
        (fun e => (e.Description, e.Footer)) =
      (methodResponse stringsEnv (lit "strings") (lit "BUILDER") (lit "WRITESTRING")).map
        (fun e => (e.Description, e.Footer)) :=
  ⟨(case_variants_agree_on_match stringsEnv asciiEqualFold_laws (lit "strings") stringsDoc
      rfl).1 (lit "join") (lit "JOIN") (by decide) (by decide),
    (case_variants_agree_on_match stringsEnv asciiEqualFold_laws (lit "strings") stringsDoc
      rfl).2 (lit "builder") (lit "writestring") (lit "BUILDER") (lit "WRITESTRING")
      (by decide) (by decide) (by decide) (by decide) (by decide) (by decide) (by decide)⟩

/-! ## C5: the name shown in the title -/

theorem getLast?_mem_of_ne_nil {α : Type} (l : List α) (h : l ≠ []) :
    ∃ a, a ∈ l ∧ l.getLast? = some a :=
  ⟨l.getLast h, List.getLast_mem h, List.getLast?_eq_getLast l h⟩

/-- C5 (as stated, refuted): in `stringsDoc` the method is stored as
`Builder.WriteString` and the type as `Builder`, yet for the queries
`builder.writestring` and `builder`, which match them, the titles show the
names as the caller typed them. -/
theorem title_keeps_typed_name :
    (methodMatches stringsEnv stringsDoc (lit "builder") (lit "writestring")).map
        (fun fn => (fn.MethodOf, fn.Name)) = [(lit "Builder", lit "WriteString")] ∧
    (methodResponse stringsEnv (lit "strings") (lit "builder") (lit "writestring")).map
        (fun e => e.Title) = Except.ok (lit "strings: func(builder) writestring") ∧
    plainMatches stringsEnv stringsDoc (lit "builder") = [] ∧
    (typeMatches stringsEnv stringsDoc (lit "builder")).map TypeEntry.Name = [lit "Builder"] ∧
    (queryResponse stringsEnv (lit "strings") (lit "builder")).map (fun e => e.Title) =
      Except.ok (lit "strings: builder") := by
  decide

/-- C5 (amended): when `queryResponse` finds a Plain function match, or
`typeResponse` a type match, the name in the title is the index-stored name of
a matched entry (the last one in index order); when `methodResponse` finds a
method match, the footer anchor carries the index-stored owning-type and
method names of a matched entry (the last one), and the title shows the type
and the method as the caller typed them. -/
theorem title_name_of_match (env : Env) (hE : FoldLaws env.EqualFold)
    (pkg name : GoString) (doc : Doc)
    (hdoc : env.getDoc pkg = { doc := some doc, err := false }) :
    (plainMatches env doc name ≠ [] →
      ∃ fn, fn ∈ plainMatches env doc name ∧
        (plainMatches env doc name).getLast? = some fn ∧
        (queryResponse env pkg name).map (fun e => e.Title) =
          Except.ok (pkg ++ lit ": " ++ fn.Name)) ∧
    (doc.Types.filter (fun t => env.EqualFold t.Name name) ≠ [] →
      ∃ t, t ∈ doc.Types.filter (fun t => env.EqualFold t.Name name) ∧
        (doc.Types.filter (fun t => env.EqualFold t.Name name)).getLast? = some t ∧
        (typeResponse env pkg name).map (fun e => e.Title) =
          Except.ok (pkg ++ lit ": type " ++ t.Name)) ∧
    (∀ t, Contains t (lit "*") = false → Contains name (lit "*") = false →
      methodMatches env doc t name ≠ [] →
      ∃ fn, fn ∈ methodMatches env doc t name ∧
        (methodMatches env doc t name).getLast? = some fn ∧
        (methodResponse env pkg t name).map (fun e => (e.Title, e.Footer)) =
          Except.ok (pkg ++ lit ": func(" ++ t ++ lit ") " ++ name,
            some { Text := doc.URL ++ lit "#" ++ fn.MethodOf ++ lit "." ++ fn.Name })) := by
  refine ⟨?_, ?_, ?_⟩
  · intro hfs
    obtain ⟨fn, hmem, hlast⟩ := getLast?_mem_of_ne_nil _ hfs
    refine ⟨fn, hmem, hlast, ?_⟩
    rw [queryResponse_eq env hE pkg name doc hdoc]
    simp only [ne_eq] at hfs
    simp [Except.map, hfs, hlast]
  · intro hts
    obtain ⟨t, hmem, hlast⟩ := getLast?_mem_of_ne_nil _ hts
    refine ⟨t, hmem, hlast, ?_⟩
    have hty : doc.Types ≠ [] := by
      intro h0
      apply hts
      simp [h0]
    have hne : ((doc.Types.filter (fun t => env.EqualFold t.Name name)).map
        renderType).flatten ≠ [] := by
      rw [Ne, flatten_map_eq_nil _ renderType_ne_nil]
      exact hts
    rw [typeResponse_of_assemble env pkg name doc _ hdoc (typeAssemble_eq env hE doc name)]
    simp only [ne_eq] at hne
    simp [Except.map, hty, hne, hlast]
  · intro t ht hn hms
    obtain ⟨fn, hmem, hlast⟩ := getLast?_mem_of_ne_nil _ hms
    refine ⟨fn, hmem, hlast, ?_⟩
    rw [methodResponse_eq env pkg t name doc ht hn hdoc]
    simp only [ne_eq] at hms
    simp [Except.map, hms, hlast]

/-- C5 (amended) at work on the index `stringsDoc`: the query `JOIN` is titled
with the stored name `Join`. -/
theorem title_name_of_match_witness :
    (queryResponse stringsEnv (lit "strings") (lit "JOIN")).map (fun e => e.Title) =
      Except.ok (lit "strings: Join") := by
  obtain ⟨fn, _, hlast, h⟩ :=
    (title_name_of_match stringsEnv asciiEqualFold_laws (lit "strings") (lit "JOIN") stringsDoc
      rfl).1 (by decide)
  have e1 : (plainMatches stringsEnv stringsDoc (lit "JOIN")).getLast? =
      some { Name := lit "Join", FnType := FunctionType.FnNormal, MethodOf := [],
             Signature := lit "func Join(elems []string, sep string) string",
             Comments := [lit "Join concatenates the elements."], Example := [] } := by
    decide
  rw [e1] at hlast
  cases hlast
  exact h.trans (by decide)

/-! ## C6: how `HandleDoc` splits `Type.Method` -/

theorem singleton_infix_iff {α : Type} (a : α) (l : List α) : [a] <:+: l ↔ a ∈ l := by
  constructor
  · intro h
    exact List.singleton_sublist.mp h.sublist
  · intro h
    obtain ⟨s, t, rfl⟩ := List.append_of_mem h
    exact ⟨s, t, by simp⟩

theorem lit_dot : lit "." = [46] := by decide

theorem Contains_dot (s : GoString) : Contains s (lit ".") = true ↔ (46 : UInt8) ∈ s := by
  simp [Contains, lit_dot, singleton_infix_iff]

theorem Split_eq (s : GoString) (sep : UInt8) :
    Split s sep = s.takeWhile (fun b => decide (b ≠ sep)) ::
      (if sep ∈ s then Split ((s.dropWhile (fun b => decide (b ≠ sep))).drop 1) sep
        else []) := by
  induction s with
  | nil => simp [Split]
  | cons c s ih =>
    by_cases hc : c = sep
    · subst hc
      simp [Split]
    · have hne : ¬ sep = c := fun h => hc h.symm
      rw [Split, if_neg hc, ih]
      simp [hc, hne, List.takeWhile, List.dropWhile]

theorem HandleDoc_of_split (env : Env) (content cmd pkg tok a b : GoString)
    (rest : List GoString) (hfields : env.Fields content = [cmd, pkg, tok])
    (hdot : Contains tok (lit ".") = true) (hsplit : Split tok 46 = a :: b :: rest) :
    HandleDoc env content = (methodResponse env pkg a b).map some := by
  unfold HandleDoc
  cases h : methodResponse env pkg a b <;>
    simp [hfields, hdot, hsplit, index, bind, Except.bind, pure, Except.pure, Except.map, h]

/-- C6 (as stated, refuted): for the token `Builder.WriteString.x` the method
side handed to `methodResponse` is `WriteString`, the text between the first
and the second dot, so the method is found; with the method side
`WriteString.x`, all of the text after the first dot, it would not be. And a
message of four tokens is not split at all, whatever its third token is. -/
theorem method_side_stops_at_second_dot :
    Split (lit "A.B.C") 46 = [lit "A", lit "B", lit "C"] ∧
    HandleDoc stringsEnv (lit "!doc strings Builder.WriteString.x") =
      (methodResponse stringsEnv (lit "strings") (lit "Builder") (lit "WriteString")).map some ∧
    HandleDoc stringsEnv (lit "!doc strings Builder.WriteString.x") ≠
      (methodResponse stringsEnv (lit "strings") (lit "Builder") (lit "WriteString.x")).map
        some ∧
    HandleDoc stringsEnv (lit "!doc strings Builder.WriteString x") =
      Except.ok (some (errResponse (lit "Too many arguments."))) := by
  decide

/-- C6 (amended): for every message of three tokens whose third token contains
a dot, `HandleDoc` answers with the method lookup whose type side is the text
of the token before its first dot and whose method side is the text between
the first dot and the second one (all of the text after the first dot when
there is no second dot); no index goes out of range. -/
theorem HandleDoc_splits_at_dots (env : Env) (content cmd pkg tok : GoString)
    (hfields : env.Fields content = [cmd, pkg, tok])
    (hdot : Contains tok (lit ".") = true) :
    HandleDoc env content =
      (methodResponse env pkg (tok.takeWhile (fun b => decide (b ≠ 46)))
        (((tok.dropWhile (fun b => decide (b ≠ 46))).drop 1).takeWhile
          (fun b => decide (b ≠ 46)))).map some := by
  have hmem : (46 : UInt8) ∈ tok := (Contains_dot tok).mp hdot
  have hsplit : Split tok 46 = tok.takeWhile (fun b => decide (b ≠ 46)) ::
      ((tok.dropWhile (fun b => decide (b ≠ 46))).drop 1).takeWhile (fun b => decide (b ≠ 46)) ::
      (if (46 : UInt8) ∈ (tok.dropWhile (fun b => decide (b ≠ 46))).drop 1 then
        Split ((((tok.dropWhile (fun b => decide (b ≠ 46))).drop 1).dropWhile
          (fun b => decide (b ≠ 46))).drop 1) 46
        else []) := by
    rw [Split_eq tok 46, if_pos hmem, Split_eq ((tok.dropWhile _).drop 1) 46]
  exact HandleDoc_of_split env content cmd pkg tok _ _ _ hfields hdot hsplit

/-- C6 (amended) at work: `Builder.WriteString` is looked up as the method
`WriteString` of the type `Builder`. -/
theorem HandleDoc_splits_at_dots_witness :
    HandleDoc stringsEnv (lit "!doc strings Builder.WriteString") =
      (methodResponse stringsEnv (lit "strings") (lit "Builder") (lit "WriteString")).map some :=
  (HandleDoc_splits_at_dots stringsEnv (lit "!doc strings Builder.WriteString") (lit "!doc")
    (lit "strings") (lit "Builder.WriteString") (by decide) (by decide)).trans (by decide)

/-! ## C7: what the exact method lookup renders -/

/-- C7: for every index and wildcard-free pair `(t, name)`, the text assembled
by `methodResponse` is the concatenation, in the order of the index, of the
renderings of exactly the entries of kind Method whose name equals `name` and
whose owning type equals `t` under `EqualFold`; an entry of kind Plain is never
among them. The description is that text after the truncation step, or an
error text when no entry matches. -/
theorem methodResponse_renders_matches (env : Env) (pkg t name : GoString) (doc : Doc)
    (ht : Contains t (lit "*") = false) (hn : Contains name (lit "*") = false)
    (hdoc : env.getDoc pkg = { doc := some doc, err := false }) :
    (methodAssemble env doc t name).map Prod.fst =
      Except.ok ((methodMatches env doc t name).map renderMethod).flatten ∧
    (methodResponse env pkg t name).map (fun e => e.Description) = Except.ok
      (if methodMatches env doc t name ≠ [] then
        cut noteIs ((methodMatches env doc t name).map renderMethod).flatten
      else if doc.Functions = [] then
        lit "Package `" ++ pkg ++ lit "` seems to have no functions"
      else
        lit "Package `" ++ pkg ++ lit "` does not have `func(" ++ t ++ lit ") " ++ name ++
          lit "`") ∧
    (∀ fn, fn ∈ methodMatches env doc t name ↔
      fn ∈ doc.Functions ∧ fn.FnType = FunctionType.FnMethod ∧
        env.EqualFold fn.Name name = true ∧ env.EqualFold fn.MethodOf t = true) := by
  have hm := methodAssemble_eq env doc t name
  refine ⟨?_, ?_, ?_⟩
  · rw [hm]
    rfl
  · rw [methodResponse_of_assemble env pkg t name doc _ ht hn hdoc hm]
    by_cases hms : methodMatches env doc t name = []
    · by_cases hfn : doc.Functions = [] <;> simp [Except.map, hms, hfn, errResponse]
    · have hne : ((methodMatches env doc t name).map renderMethod).flatten ≠ [] := by
        rw [Ne, flatten_map_eq_nil _ renderMethod_ne_nil]
        exact hms
      have hfn : doc.Functions ≠ [] := by
        intro h0
        apply hms
        simp [methodMatches, h0]
      simp only [ne_eq] at hne
      simp [Except.map, hms, hne, hfn]
  · intro fn
    simp [methodMatches, List.mem_filter, and_assoc]

/-- C7 at work on the index `stringsDoc`: `builder.writestring` renders the
method `Builder.WriteString` and nothing else. -/
theorem methodResponse_renders_matches_witness :
    (methodResponse stringsEnv (lit "strings") (lit "builder") (lit "writestring")).map
        (fun e => e.Description) =
      Except.ok (lit ("`func (b *Builder) WriteString(s string) (int, error)`" ++
        "\nWriteString appends s to the buffer.")) :=
  (methodResponse_renders_matches stringsEnv (lit "strings") (lit "builder") (lit "writestring")
    stringsDoc (by decide) (by decide) rfl).2.1.trans (by decide)

/-! ## C8: a single method match -/

theorem assemble_methodDoc (sig comment : GoString) :
    methodAssemble (envOf (lit "p") (methodDoc sig comment)) (methodDoc sig comment) (lit "T")
        (lit "m") =
      Except.ok ((lit "`" ++ sig) ++ (lit "`" ++ (lit "\n" ++ comment)),
        lit "https://pkg.go.dev/p#T.m") ∧
    methodMatches (envOf (lit "p") (methodDoc sig comment)) (methodDoc sig comment) (lit "T")
        (lit "m") =
      [{ Name := lit "m", FnType := FunctionType.FnMethod, MethodOf := lit "T",
         Signature := sig, Comments := [comment], Example := [] }] := by
  have h : methodAssemble (envOf (lit "p") (methodDoc sig comment)) (methodDoc sig comment)
      (lit "T") (lit "m") =
      Except.ok (lit "`" ++ sig ++ lit "`" ++ (lit "\n" ++ comment),
        lit "https://pkg.go.dev/p#T.m") := rfl
  refine ⟨?_, rfl⟩
  rw [h]
  simp

theorem Contains_eq_false_of_mem {s sub : GoString} {b : UInt8} (hb : b ∈ sub)
    (hs : b ∉ s) : Contains s sub = false := by
  simp only [Contains, decide_eq_false_iff_not]
  intro h
  exact hs (h.subset hb)

theorem not_mem_cut_methodDoc (pre comment : GoString) (hlen : pre.length = 2000)
    (hpre : (90 : UInt8) ∉ pre) :
    ∃ e, methodResponse (envOf (lit "p") (methodDoc (pre ++ [90]) comment)) (lit "p") (lit "T")
        (lit "m") = Except.ok e ∧ (90 : UInt8) ∉ e.Description := by
  obtain ⟨hm, _⟩ := assemble_methodDoc (pre ++ [90]) comment
  rw [methodResponse_of_assemble _ _ _ _ _ _ (by decide) (by decide) (envOf_getDoc _ _) hm]
  refine ⟨_, rfl, ?_⟩
  have hlong : 2000 < ((lit "`" ++ (pre ++ [90])) ++ (lit "`" ++ (lit "\n" ++ comment))).length := by
    simp only [List.length_append, hlen, List.length_singleton]
    omega
  have hle : 1950 ≤ (lit "`" ++ pre).length := by
    simp only [List.length_append, hlen]
    omega
  have htake : (((lit "`" ++ (pre ++ [90])) ++ (lit "`" ++ (lit "\n" ++ comment))).take 1950) =
      (lit "`" ++ pre).take 1950 := by
    have : (lit "`" ++ (pre ++ [90])) ++ (lit "`" ++ (lit "\n" ++ comment)) =
        (lit "`" ++ pre) ++ ([90] ++ (lit "`" ++ (lit "\n" ++ comment))) := by
      simp
    rw [this, List.take_append_of_le_length hle]
  have hnil : ¬ ((lit "`" ++ (pre ++ [90])) ++ (lit "`" ++ (lit "\n" ++ comment)) = []) := by
    simp [lit_tick]
  have hfn : ¬ ((methodDoc (pre ++ [90]) comment).Functions.length = 0) := by
    simp [methodDoc]
  simp only [hfn, hnil, if_false, cut, gt_iff_lt, hlong, if_true, htake, List.mem_append,
    not_or]
  constructor
  · intro h
    have h2 := List.mem_of_mem_take h
    simp only [lit_tick, List.singleton_append, List.mem_cons] at h2
    rcases h2 with h2 | h2
    · exact absurd h2 (by decide)
    · exact hpre h2
  · decide

/-- C8 (as stated, refuted): the index `cutDoc` has the single method `T.m`,
with a signature of 2001 bytes ending in `Z` and the comment line `Z`; the
lookup of `T.m` matches that entry alone, the text is cut after 1950 bytes, and
the description holds neither the signature nor the comment line. -/
theorem cut_drops_signature_and_comment :
    (methodMatches (envOf (lit "p") cutDoc) cutDoc (lit "T") (lit "m")).length = 1 ∧
    (methodResponse (envOf (lit "p") cutDoc) (lit "p") (lit "T") (lit "m")).map
        (fun e => Contains e.Description longSignature) = Except.ok false ∧
    (methodResponse (envOf (lit "p") cutDoc) (lit "p") (lit "T") (lit "m")).map
        (fun e => Contains e.Description (lit "Z")) = Except.ok false := by
  have hpre : (90 : UInt8) ∉ List.replicate 2000 (97 : UInt8) := by
    intro h
    exact absurd (List.eq_of_mem_replicate h) (by decide)
  obtain ⟨e, he, hne⟩ := not_mem_cut_methodDoc (List.replicate 2000 97) (lit "Z")
    (List.length_replicate 2000 97) hpre
  refine ⟨?_, ?_, ?_⟩
  · rw [cutDoc, (assemble_methodDoc longSignature (lit "Z")).2]
    rfl
  · rw [cutDoc, longSignature, he]
    simp only [Except.map]
    rw [Contains_eq_false_of_mem (b := 90)
      (List.mem_append_right _ (List.mem_singleton_self _)) hne]
  · rw [cutDoc, longSignature, he]
    simp only [Except.map]
    rw [Contains_eq_false_of_mem (b := 90) (by decide) hne]

/-- C8 (amended): when a wildcard-free pair matches exactly one entry of kind
Method, `methodResponse` returns a block whose footer is the anchor built from
the index URL and the stored owning-type and method names of that entry; and
when the rendering of the entry has at most 2000 bytes, the description is that
rendering, which contains the signature of the entry and its first comment
line (if it has one). -/
theorem single_method_match (env : Env) (pkg t name : GoString) (doc : Doc) (fn : Function)
    (ht : Contains t (lit "*") = false) (hn : Contains name (lit "*") = false)
    (hdoc : env.getDoc pkg = { doc := some doc, err := false })
    (hone : methodMatches env doc t name = [fn]) :
    ∃ e, methodResponse env pkg t name = Except.ok e ∧
      e.Footer = some { Text := doc.URL ++ lit "#" ++ fn.MethodOf ++ lit "." ++ fn.Name } ∧
      ((renderMethod fn).length ≤ 2000 →
        e.Description = renderMethod fn ∧ fn.Signature <:+: e.Description ∧
          ∀ c rest, fn.Comments = c :: rest → c <:+: e.Description) := by
  rw [methodResponse_eq env pkg t name doc ht hn hdoc, hone]
  refine ⟨_, rfl, ?_, ?_⟩
  · simp
  · intro hlen
    have hcut : cut noteIs (renderMethod fn) = renderMethod fn := by
      unfold cut
      rw [if_neg (by omega)]
    simp only [ne_eq, List.cons_ne_nil, not_false_eq_true, if_true, List.map_cons, List.map_nil,
      List.flatten_cons, List.flatten_nil, List.append_nil, hcut]
    refine ⟨trivial, ?_, ?_⟩
    · unfold renderMethod
      exact ⟨lit "`", lit "`" ++ (lit "\n" ++ firstLineOr (lit "*no info*") fn.Comments) ++
        (if fn.Example = [] then [] else lit "\nExample:\n```\n" ++ fn.Example ++ lit "\n```"),
        by simp⟩
    · intro c rest hc
      unfold renderMethod
      rw [hc]
      exact ⟨lit "`" ++ fn.Signature ++ lit "`" ++ lit "\n",
        (if fn.Example = [] then [] else lit "\nExample:\n```\n" ++ fn.Example ++ lit "\n```"),
        by simp [firstLineOr]⟩

/-- C8 (amended) at work on the index `stringsDoc`: `builder.writestring`
matches one method; the footer is the anchor of `Builder.WriteString` and the
description holds its signature and first comment line. -/
theorem single_method_match_witness :
    (methodResponse stringsEnv (lit "strings") (lit "builder") (lit "writestring")).map
        (fun e => (e.Footer, Contains e.Description
          (lit "func (b *Builder) WriteString(s string) (int, error)"),
          Contains e.Description (lit "WriteString appends s to the buffer."))) =
      Except.ok (some { Text := lit "https://pkg.go.dev/strings#Builder.WriteString" },
        true, true) := by
  obtain ⟨e, he, hfoot, hdesc⟩ := single_method_match stringsEnv (lit "strings") (lit "builder")
    (lit "writestring") stringsDoc
    { Name := lit "WriteString", FnType := FunctionType.FnMethod, MethodOf := lit "Builder",
      Signature := lit "func (b *Builder) WriteString(s string) (int, error)",
      Comments := [lit "WriteString appends s to the buffer.", lit "It returns len(s)."],
      Example := [] }
    (by decide) (by decide) rfl (by decide)
  obtain ⟨_, hsig, hcom⟩ := hdesc (by decide)
  have hcom2 := hcom (lit "WriteString appends s to the buffer.") [lit "It returns len(s)."] rfl
  rw [he]
  simp only [Except.map, hfoot, Contains, decide_eq_true hsig, decide_eq_true hcom2]
  decide

/-! ## C9: what the glob lookup renders -/

/-- C9: for every index with at least one function and at least one type and
every pair of compiled matchers, `methodGlobResponse` renders, in the order of
the index, exactly the entries of kind Method whose owning type satisfies the
type-side matcher and whose name satisfies the method-side matcher; the
description is that text after the truncation step, or the no-results error
text when no entry matches. With the matcher of the spec, the patterns `*` and
`Write*` select `WriteString` and `WriteByte` among the methods of `stringsDoc`
and leave `Read` out. -/
theorem methodGlobResponse_renders_matches (env : Env) (pkg t name : GoString) (doc : Doc)
    (reT reN : Matcher)
    (hT : env.Compile t = Except.ok reT) (hN : env.Compile name = Except.ok reN)
    (hdoc : env.getDoc pkg = { doc := some doc, err := false })
    (hfn : doc.Functions ≠ []) (hty : doc.Types ≠ []) :
    (globAssemble reT reN doc = Except.ok ((globMatches reT reN doc).map renderGlob).flatten ∧
      (methodGlobResponse env pkg t name).map (fun e => e.Description) = Except.ok
        (if globMatches reT reN doc ≠ [] then
          cut noteWas ((globMatches reT reN doc).map renderGlob).flatten
        else
          lit "No results found matching the expression `" ++ t ++ lit "." ++ name ++
            lit "` in package `" ++ pkg ++ lit "`") ∧
      (∀ fn, fn ∈ globMatches reT reN doc ↔
        fn ∈ doc.Functions ∧ fn.FnType = FunctionType.FnMethod ∧
          reT fn.MethodOf = true ∧ reN fn.Name = true)) ∧
    ((globMatches (globMatch (lit "*")) (globMatch (lit "Write*")) stringsDoc).map
        Function.Name = [lit "WriteString", lit "WriteByte"] ∧
      (methodGlobResponse stringsEnv (lit "strings") (lit "*") (lit "Write*")).map
          (fun e => e.Description) =
        Except.ok (lit ("`func (b *Builder) WriteString(s string) (int, error)`:\n" ++
          "WriteString appends s to the buffer." ++
          "`func (b *Builder) WriteByte(c byte) error`:\n*no information available*"))) := by
  have hg := globAssemble_eq reT reN doc
  refine ⟨⟨hg, ?_, ?_⟩, by decide, by decide⟩
  · rw [methodGlobResponse_of_assemble env pkg t name doc reT reN _ hT hN hdoc hg]
    by_cases hgs : globMatches reT reN doc = []
    · simp [Except.map, hgs, hfn, hty, errResponse]
    · have hne : ((globMatches reT reN doc).map renderGlob).flatten ≠ [] := by
        rw [Ne, flatten_map_eq_nil _ renderGlob_ne_nil]
        exact hgs
      simp only [ne_eq] at hne
      simp [Except.map, hgs, hne, hfn, hty]
  · intro fn
    simp [globMatches, List.mem_filter, and_assoc]

/-- C9 at work on the index `stringsDoc`: the patterns `b*` and `*` render the
two methods of `Builder` and leave `Reader.Read` and the plain `Join` out. -/
theorem methodGlobResponse_renders_matches_witness :
    (methodGlobResponse stringsEnv (lit "strings") (lit "b*") (lit "*")).map
        (fun e => e.Description) =
      Except.ok (lit ("`func (b *Builder) WriteString(s string) (int, error)`:\n" ++
        "WriteString appends s to the buffer." ++
        "`func (b *Builder) WriteByte(c byte) error`:\n*no information available*")) :=
  (methodGlobResponse_renders_matches stringsEnv (lit "strings") (lit "b*") (lit "*") stringsDoc
    (globMatch (lit "b*")) (globMatch (lit "*")) rfl rfl rfl (by decide)
    (by decide)).1.2.1.trans (by decide)

/-! ## C10: the empty-index guard of the glob lookup -/

/-- C10 (as stated, refuted): the index `noTypesDoc` has functions, among them
the methods `WriteString` and `WriteByte` that the patterns `*` and `Write*`
select, and no type; `methodGlobResponse` answers with the no-results error
block instead of the two matches. -/
theorem glob_guard_fires_without_types :
    noTypesDoc.Functions ≠ [] ∧ noTypesDoc.Types = [] ∧
    (globMatches (globMatch (lit "*")) (globMatch (lit "Write*")) noTypesDoc).map
        Function.Name = [lit "WriteString", lit "WriteByte"] ∧
    methodGlobResponse (envOf (lit "strings") noTypesDoc) (lit "strings") (lit "*")
        (lit "Write*") =
      Except.ok (errResponse
        (lit "No results found matching the expression `*.Write*` in package `strings`")) := by
  decide

/-- C10 (amended): once both patterns compile and the index is fetched, the
guard of `methodGlobResponse` fires when the index has no function or no type:
the answer is then the no-results error block, whatever the matchers select;
for every index with at least one function and at least one type the matchers
are evaluated against the function entries, and the answer is the block of the
matches, or the no-results error block when nothing matches. -/
theorem glob_guard (env : Env) (pkg t name : GoString) (doc : Doc) (reT reN : Matcher)
    (hT : env.Compile t = Except.ok reT) (hN : env.Compile name = Except.ok reN)
    (hdoc : env.getDoc pkg = { doc := some doc, err := false }) :
    ((doc.Functions = [] ∨ doc.Types = []) →
      methodGlobResponse env pkg t name = Except.ok (errResponse
        (lit "No results found matching the expression `" ++ t ++ lit "." ++ name ++
          lit "` in package `" ++ pkg ++ lit "`"))) ∧
    (doc.Functions ≠ [] → doc.Types ≠ [] →
      methodGlobResponse env pkg t name = Except.ok
        (if globMatches reT reN doc = [] then
          errResponse
            (lit "No results found matching the expression `" ++ t ++ lit "." ++ name ++
              lit "` in package `" ++ pkg ++ lit "`")
        else
          { Title := lit "Matches"
            Description := cut noteWas ((globMatches reT reN doc).map renderGlob).flatten
            Footer := some { Text := doc.URL } })) := by
  have h := methodGlobResponse_of_assemble env pkg t name doc reT reN _ hT hN hdoc
    (globAssemble_eq reT reN doc)
  constructor
  · intro hempty
    rw [h]
    rcases hempty with h0 | h0 <;> simp [h0]
  · intro hfn hty
    rw [h]
    by_cases hgs : globMatches reT reN doc = []
    · simp [hgs, hfn, hty]
    · have hne : ((globMatches reT reN doc).map renderGlob).flatten ≠ [] := by
        rw [Ne, flatten_map_eq_nil _ renderGlob_ne_nil]
        exact hgs
      simp only [ne_eq] at hne
      simp [hgs, hne, hfn, hty]

/-- C10 (amended) at work: on `noTypesDoc` the guard fires, on `stringsDoc`
the patterns `*` and `Write*` return the block of the two matches. -/
theorem glob_guard_witness :
    methodGlobResponse (envOf (lit "strings") noTypesDoc) (lit "strings") (lit "*")
        (lit "Write*") =
      Except.ok (errResponse
        (lit "No results found matching the expression `*.Write*` in package `strings`")) ∧
    methodGlobResponse stringsEnv (lit "strings") (lit "*") (lit "Write*") =
      Except.ok
        { Title := lit "Matches"
          Description := lit ("`func (b *Builder) WriteString(s string) (int, error)`:\n" ++
            "WriteString appends s to the buffer." ++
            "`func (b *Builder) WriteByte(c byte) error`:\n*no information available*")
          Footer := some { Text := lit "https://pkg.go.dev/strings" } } :=
  ⟨((glob_guard (envOf (lit "strings") noTypesDoc) (lit "strings") (lit "*") (lit "Write*")
      noTypesDoc (globMatch (lit "*")) (globMatch (lit "Write*")) rfl rfl rfl).1
      (Or.inr rfl)).trans (by decide),
    ((glob_guard stringsEnv (lit "strings") (lit "*") (lit "Write*") stringsDoc
      (globMatch (lit "*")) (globMatch (lit "Write*")) rfl rfl rfl).2 (by decide)
      (by decide)).trans (by decide)⟩

/-! ## C11: when the method lookup delegates to the glob lookup -/

/-- C11: `methodResponse` hands the query to `methodGlobResponse` exactly when
the type side or the method side contains the byte `*`. When neither does, the
answer is that of the exact lookup: it is the same whatever `glob.Compile`
would return (no pattern is compiled), and on a fetched index it is built from
the entries of kind Method that match both names under `EqualFold`. -/
theorem methodResponse_delegates_on_wildcard (env : Env) (pkg t name : GoString) :
    ((Contains t (lit "*") = true ∨ Contains name (lit "*") = true) →
      methodResponse env pkg t name = methodGlobResponse env pkg t name) ∧
    (Contains t (lit "*") = false → Contains name (lit "*") = false →
      (∀ compile : GoString → Except GoString Matcher,
        methodResponse { env with Compile := compile } pkg t name =
          methodResponse env pkg t name) ∧
      (∀ doc, env.getDoc pkg = { doc := some doc, err := false } →
        methodResponse env pkg t name = Except.ok
          (if methodMatches env doc t name ≠ [] then
            { Title := pkg ++ lit ": func(" ++ t ++ lit ") " ++ name
              Description :=
                cut noteIs ((methodMatches env doc t name).map renderMethod).flatten
              Footer := some { Text := ((methodMatches env doc t name).getLast?.map
                (fun fn => doc.URL ++ lit "#" ++ fn.MethodOf ++ lit "." ++ fn.Name)).getD [] } }
          else if doc.Functions = [] then
            errResponse (lit "Package `" ++ pkg ++ lit "` seems to have no functions")
          else
            errResponse
              (lit "Package `" ++ pkg ++ lit "` does not have `func(" ++ t ++ lit ") " ++
                name ++ lit "`")))) := by
  constructor
  · intro h
    unfold methodResponse
    rcases h with h | h <;> simp [h]
  · intro ht hn
    constructor
    · intro compile
      unfold methodResponse methodAssemble methodStep
      simp only [ht, hn]
      rfl
    · intro doc hdoc
      exact methodResponse_eq env pkg t name doc ht hn hdoc

/-- C11 at work on the index `stringsDoc`: `*.Write*` is answered by the glob
lookup, and `builder.writestring` by the exact lookup, also in an environment
where every pattern fails to compile. -/
theorem methodResponse_delegates_on_wildcard_witness :
    methodResponse stringsEnv (lit "strings") (lit "*") (lit "Write*") =
      methodGlobResponse stringsEnv (lit "strings") (lit "*") (lit "Write*") ∧
    methodResponse { stringsEnv with Compile := fun _ => Except.error (lit "bad pattern") }
        (lit "strings") (lit "builder") (lit "writestring") =
      methodResponse stringsEnv (lit "strings") (lit "builder") (lit "writestring") :=
  ⟨(methodResponse_delegates_on_wildcard stringsEnv (lit "strings") (lit "*")
      (lit "Write*")).1 (Or.inr (by decide)),
    ((methodResponse_delegates_on_wildcard stringsEnv (lit "strings") (lit "builder")
      (lit "writestring")).2 (by decide) (by decide)).1 _⟩

/-! ## C12: too many arguments -/

/-- C12: for every message with four or more tokens `HandleDoc` sends the
error block `Too many arguments.`; this holds for every index provider and
every pattern compiler, which the handler does not call on that path. -/
theorem HandleDoc_too_many_arguments (env : Env) (content : GoString)
    (h : 4 ≤ (env.Fields content).length) :
    HandleDoc env content = Except.ok (some (errResponse (lit "Too many arguments."))) ∧
    ∀ (getDoc : GoString → Fetched) (compile : GoString → Except GoString Matcher),
      HandleDoc { env with getDoc := getDoc, Compile := compile } content =
        Except.ok (some (errResponse (lit "Too many arguments."))) := by
  have key : ∀ env' : Env, env'.Fields = env.Fields →
      HandleDoc env' content = Except.ok (some (errResponse (lit "Too many arguments."))) := by
    intro env' hf
    unfold HandleDoc
    rw [hf]
    obtain ⟨n, hn⟩ : ∃ n, (env.Fields content).length = n + 4 := ⟨_, (Nat.sub_add_cancel h).symm⟩
    simp only [hn]
    rfl
  exact ⟨key env rfl, fun getDoc compile => key _ rfl⟩

/-- C12 at work: a message of four tokens gets the error block, although its
package does not exist and its last tokens look like a method query. -/
theorem HandleDoc_too_many_arguments_witness :
    HandleDoc stringsEnv (lit "!doc nosuchpkg Builder.Write* x") =
      Except.ok (some (errResponse (lit "Too many arguments."))) :=
  (HandleDoc_too_many_arguments stringsEnv (lit "!doc nosuchpkg Builder.Write* x")
    (by decide)).1

/-! ## C13: the no-match error of the symbol lookup -/

theorem cut_ne_nil (note text : GoString) (h : text ≠ []) : cut note text ≠ [] := by
  unfold cut
  split
  · rename_i hlen
    intro h0
    have := congrArg List.length h0
    simp only [List.length_append, List.length_take, List.length_nil] at this
    omega
  · exact h

/-- C13: on a fetched index, `queryResponse` returns the no-match error block
exactly when no function of kind Plain and no type has a name equal to the
query name under `EqualFold`; in every other case it returns a block with a
footer whose description is not empty, whatever the matched entries hold. -/
theorem queryResponse_no_match_iff (env : Env) (hE : FoldLaws env.EqualFold)
    (pkg name : GoString) (doc : Doc)
    (hdoc : env.getDoc pkg = { doc := some doc, err := false }) :
    (queryResponse env pkg name = Except.ok (errResponse
        (lit "No type or function `" ++ name ++ lit "` found in package `" ++ pkg ++ lit "`")) ↔
      plainMatches env doc name = [] ∧ typeMatches env doc name = []) ∧
    (¬ (plainMatches env doc name = [] ∧ typeMatches env doc name = []) →
      ∃ e, queryResponse env pkg name = Except.ok e ∧ e.Footer ≠ none ∧
        e.Description ≠ []) := by
  have hq := queryResponse_eq env hE pkg name doc hdoc
  have hfn : ((plainMatches env doc name).map renderQueryFn).flatten = [] ↔
      plainMatches env doc name = [] := flatten_map_eq_nil _ renderQueryFn_ne_nil _
  have hty : ((typeMatches env doc name).map renderQueryType).flatten = [] ↔
      typeMatches env doc name = [] := flatten_map_eq_nil _ renderQueryType_ne_nil _
  by_cases hfs : plainMatches env doc name = []
  · by_cases hts : typeMatches env doc name = []
    · rw [hq]
      simp [hfs, hts]
    · rw [hq]
      simp only [hfs, hts, ne_eq, not_true_eq_false, if_false, not_false_eq_true, if_true,
        true_and, and_false, iff_false]
      refine ⟨?_, fun _ => ⟨_, rfl, by simp, ?_⟩⟩
      · intro h
        have h2 := congrArg (fun r => r.map (fun e => e.Footer)) h
        simp [Except.map, errResponse] at h2
      · exact cut_ne_nil _ _ (fun h => hts (hty.mp h))
  · rw [hq]
    simp only [hfs, ne_eq, not_false_eq_true, if_true, false_and, iff_false]
    refine ⟨?_, fun _ => ⟨_, rfl, by simp, ?_⟩⟩
    · intro h
      have h2 := congrArg (fun r => r.map (fun e => e.Footer)) h
      simp [Except.map, errResponse] at h2
    · exact cut_ne_nil _ _ (fun h => hfs (hfn.mp h))

/-- C13 at work on the index `stringsDoc`: `nothing` matches no entry and gets
the error block; `join` matches and gets a description that is not empty. -/
theorem queryResponse_no_match_iff_witness :
    queryResponse stringsEnv (lit "strings") (lit "nothing") = Except.ok (errResponse
      (lit "No type or function `nothing` found in package `strings`")) ∧
    (queryResponse stringsEnv (lit "strings") (lit "join")).map
      (fun e => decide (e.Description ≠ [])) = Except.ok true := by
  have h1 := queryResponse_no_match_iff stringsEnv asciiEqualFold_laws (lit "strings")
    (lit "nothing") stringsDoc rfl
  have h2 := queryResponse_no_match_iff stringsEnv asciiEqualFold_laws (lit "strings")
    (lit "join") stringsDoc rfl
  obtain ⟨e, he, _, hd⟩ := h2.2 (by decide)
  refine ⟨(h1.1.mpr (by decide)).trans (by decide), ?_⟩
  rw [he]
  simp [Except.map, hd]

/-! ## C14: the page limit -/

theorem scaleSearch_ge (n fuel s : Nat) : s ≤ scaleSearch n fuel s := by
  induction fuel generalizing s with
  | zero => exact le_refl s
  | succ fuel ih =>
    unfold scaleSearch
    split
    · exact le_refl s
    · exact le_trans (Nat.le_succ s) (ih (s + 1))

theorem scale_ge_three (n : Nat) (h : n < 2 ^ 53) : 3 ≤ scaleSearch n 57 0 := by
  have h0 : ¬ 10 * 2 ^ 52 ≤ n * 2 ^ 0 := by omega
  have h1 : ¬ 10 * 2 ^ 52 ≤ n * 2 ^ (0 + 1) := by omega
  have h2 : ¬ 10 * 2 ^ 52 ≤ n * 2 ^ (0 + 1 + 1) := by omega
  rw [scaleSearch, if_neg h0, scaleSearch, if_neg h1, scaleSearch, if_neg h2]
  exact scaleSearch_ge n 54 (0 + 1 + 1 + 1)

theorem roundHalfEven_ten_bounds (a : Nat) :
    10 * roundHalfEven a 10 ≤ a + 5 ∧ a ≤ 10 * roundHalfEven a 10 + 5 ∧
      (a % 10 = 0 → roundHalfEven a 10 = a / 10) := by
  unfold roundHalfEven
  split_ifs <;> omega

theorem ceil_round_ten (n P : Nat) (hP : 8 ≤ P) :
    (roundHalfEven (n * P) 10 + P - 1) / P = (n + 9) / 10 := by
  obtain ⟨hlo, hhi, hex⟩ := roundHalfEven_ten_bounds (n * P)
  have hn : n = 10 * (n / 10) + n % 10 := (Nat.div_add_mod n 10).symm
  have hr : n % 10 < 10 := Nat.mod_lt n (by decide)
  have ha : n * P = 10 * (n / 10 * P) + n % 10 * P := by
    conv_lhs => rw [hn]
    ring
  generalize hm : roundHalfEven (n * P) 10 = m at hlo hhi hex
  generalize hx : n / 10 * P = x at ha
  have hq : (n + 9) / 10 = n / 10 + (if n % 10 = 0 then 0 else 1) := by
    split <;> omega
  rw [hq]
  by_cases hr0 : n % 10 = 0
  · rw [if_pos hr0, Nat.add_zero]
    have hm2 : m = x := by
      have h1 : (n * P) % 10 = 0 := by
        rw [ha, hr0]
        omega
      have h2 := hex h1
      rw [ha, hr0] at h2
      omega
    apply Nat.div_eq_of_lt_le
    · rw [hx]
      omega
    · rw [Nat.succ_mul, hx]
      omega
  · rw [if_neg hr0]
    have hrP : P ≤ n % 10 * P := Nat.le_mul_of_pos_left P (Nat.pos_of_ne_zero hr0)
    have hrP2 : n % 10 * P ≤ 9 * P := Nat.mul_le_mul_right P (by omega)
    apply Nat.div_eq_of_lt_le
    · rw [Nat.add_mul, hx]
      omega
    · rw [Nat.succ_mul, Nat.add_mul, hx]
      omega

theorem Ceil_divTen (n : Nat) (h : n < 2 ^ 53) : Ceil (divTen n) = (n + 9) / 10 := by
  unfold Ceil divTen
  have h3 := scale_ge_three n h
  have hP : 8 ≤ 2 ^ scaleSearch n 57 0 := by
    calc 8 = 2 ^ 3 := by norm_num
      _ ≤ 2 ^ scaleSearch n 57 0 := Nat.pow_le_pow_right (by decide) h3
  exact ceil_round_ten n _ hP

theorem FuncsPages_fetched (env : Env) (pages : Pages) (s : Session) (reg : Registry)
    (m : MessageCreate) (pfx cmd pkg : GoString) (doc : Doc)
    (hfields : env.Fields m.Content = [cmd, pkg])
    (hdoc : env.getDoc pkg = { doc := some doc, err := false }) :
    FuncsPages env pages s reg m pfx = Except.ok
      (match s.ChannelMessageSendEmbed m.ChannelID
          (firstPageEmbed pages (lit "functions") (funcsListener pages m doc)) with
        | none =>
          (reg, [Effect.sendEmbed m.ChannelID
            (firstPageEmbed pages (lit "functions") (funcsListener pages m doc))])
        | some sent =>
          (reg.store sent.ID (funcsListener pages m doc),
            [Effect.sendEmbed m.ChannelID
              (firstPageEmbed pages (lit "functions") (funcsListener pages m doc)),
             Effect.reactionAdd sent.ChannelID sent.ID pages.leftArrow,
             Effect.reactionAdd sent.ChannelID sent.ID pages.rightArrow,
             Effect.reactionAdd sent.ChannelID sent.ID pages.destroyEmoji])) := by
  unfold FuncsPages
  cases hs : s.ChannelMessageSendEmbed m.ChannelID
      (firstPageEmbed pages (lit "functions") (funcsListener pages m doc)) <;>
    simp [hfields, hdoc, hs, index, deref, bind, Except.bind, pure, Except.pure]

theorem TypesPages_fetched (env : Env) (pages : Pages) (s : Session) (reg : Registry)
    (m : MessageCreate) (pfx cmd pkg : GoString) (doc : Doc)
    (hfields : env.Fields m.Content = [cmd, pkg])
    (hdoc : env.getDoc pkg = { doc := some doc, err := false }) :
    TypesPages env pages s reg m pfx = Except.ok
      (match s.ChannelMessageSendEmbed m.ChannelID
          (firstPageEmbed pages (lit "types") (typesListener pages m doc)) with
        | none =>
          (reg, [Effect.sendEmbed m.ChannelID
            (firstPageEmbed pages (lit "types") (typesListener pages m doc))])
        | some sent =>
          (reg.store sent.ID (typesListener pages m doc),
            [Effect.sendEmbed m.ChannelID
              (firstPageEmbed pages (lit "types") (typesListener pages m doc)),
             Effect.reactionAdd sent.ChannelID sent.ID pages.leftArrow,
             Effect.reactionAdd sent.ChannelID sent.ID pages.rightArrow,
             Effect.reactionAdd sent.ChannelID sent.ID pages.destroyEmoji])) := by
  unfold TypesPages
  cases hs : s.ChannelMessageSendEmbed m.ChannelID
      (firstPageEmbed pages (lit "types") (typesListener pages m doc)) <;>
    simp [hfields, hdoc, hs, index, deref, bind, Except.bind, pure, Except.pure]

/-- C14: for a listing of `N` items (`N` below `2 ^ 53`, the lengths that
`float64` holds exactly), the page limit `int(math.Ceil(float64(N) / 10.0))`
computed by `FuncsPages` and `TypesPages` equals `(N + 9) / 10`: it is the
limit of the pagination state they build and register, and the number shown
after `Page 1/` in the footer of the first page. In particular 23 items give
3 pages, no item gives 0 and 10 items give 1. -/
theorem page_limit_is_ceil (env : Env) (pages : Pages) (s : Session) (reg : Registry)
    (m : MessageCreate) (pfx cmd pkg : GoString) (doc : Doc)
    (hfields : env.Fields m.Content = [cmd, pkg])
    (hdoc : env.getDoc pkg = { doc := some doc, err := false })
    (hfn : doc.Functions.length < 2 ^ 53) (hty : doc.Types.length < 2 ^ 53) :
    (∃ reg' e rest, FuncsPages env pages s reg m pfx =
        Except.ok (reg', Effect.sendEmbed m.ChannelID e :: rest) ∧
      e.Footer = some { Text := lit "Page 1/" ++ itoa ((doc.Functions.length + 9) / 10) } ∧
      (funcsListener pages m doc).PageLimit = (doc.Functions.length + 9) / 10 ∧
      ∀ sent, s.ChannelMessageSendEmbed m.ChannelID e = some sent →
        reg' sent.ID = some (funcsListener pages m doc)) ∧
    (∃ reg' e rest, TypesPages env pages s reg m pfx =
        Except.ok (reg', Effect.sendEmbed m.ChannelID e :: rest) ∧
      e.Footer = some { Text := lit "Page 1/" ++ itoa ((doc.Types.length + 9) / 10) } ∧
      (typesListener pages m doc).PageLimit = (doc.Types.length + 9) / 10 ∧
      ∀ sent, s.ChannelMessageSendEmbed m.ChannelID e = some sent →
        reg' sent.ID = some (typesListener pages m doc)) ∧
    Ceil (divTen 23) = 3 ∧ Ceil (divTen 0) = 0 ∧ Ceil (divTen 10) = 1 := by
  have hF : (funcsListener pages m doc).PageLimit = (doc.Functions.length + 9) / 10 :=
    Ceil_divTen _ hfn
  have hT : (typesListener pages m doc).PageLimit = (doc.Types.length + 9) / 10 :=
    Ceil_divTen _ hty
  refine ⟨?_, ?_, by decide, by decide, by decide⟩
  · rw [FuncsPages_fetched env pages s reg m pfx cmd pkg doc hfields hdoc]
    cases hs : s.ChannelMessageSendEmbed m.ChannelID
        (firstPageEmbed pages (lit "functions") (funcsListener pages m doc)) with
    | none =>
      refine ⟨_, _, _, rfl, ?_, hF, ?_⟩
      · simp [firstPageEmbed, hF]
      · intro sent hsent
        rw [hs] at hsent
        cases hsent
    | some sent0 =>
      refine ⟨_, _, _, rfl, ?_, hF, ?_⟩
      · simp [firstPageEmbed, hF]
      · intro sent hsent
        rw [hs] at hsent
        cases hsent
        simp [Registry.store]
  · rw [TypesPages_fetched env pages s reg m pfx cmd pkg doc hfields hdoc]
    cases hs : s.ChannelMessageSendEmbed m.ChannelID
        (firstPageEmbed pages (lit "types") (typesListener pages m doc)) with
    | none =>
      refine ⟨_, _, _, rfl, ?_, hT, ?_⟩
      · simp [firstPageEmbed, hT]
      · intro sent hsent
        rw [hs] at hsent
        cases hsent
    | some sent0 =>
      refine ⟨_, _, _, rfl, ?_, hT, ?_⟩
      · simp [firstPageEmbed, hT]
      · intro sent hsent
        rw [hs] at hsent
        cases hsent
        simp [Registry.store]

theorem length_listingDoc (n : Nat) :
    (listingDoc n).Functions.length = n ∧ (listingDoc n).Types.length = n := by
  simp [listingDoc]

/-- C14 at work: the listing of an index with 23 functions registers a state
of 3 pages and shows `Page 1/3`. -/
theorem page_limit_is_ceil_witness :
    (FuncsPages (envOf (lit "strings") (listingDoc 23)) samplePages okSession sampleRegistry
        listingRequest (lit "!")).map
      (fun r => ((r.1 (lit "m1")).map (fun p => p.PageLimit),
        r.2.head?.map (fun e => match e with
          | Effect.sendEmbed _ b => b.Footer
          | Effect.reactionAdd _ _ _ => none))) =
      Except.ok (some 3, some (some { Text := lit "Page 1/3" })) := by
  obtain ⟨reg', e, rest, hrun, hfoot, hlim, hstore⟩ :=
    (page_limit_is_ceil (envOf (lit "strings") (listingDoc 23)) samplePages okSession
      sampleRegistry listingRequest (lit "!") (lit "!getfuncs") (lit "strings") (listingDoc 23)
      (by decide) (envOf_getDoc _ _)
      (by rw [(length_listingDoc 23).1]; norm_num)
      (by rw [(length_listingDoc 23).2]; norm_num)).1
  have hsent := hstore { ID := lit "m1", ChannelID := lit "c1" } rfl
  rw [(length_listingDoc 23).1] at hfoot hlim
  rw [hrun]
  simp only [Except.map, hsent, Option.map_some', hlim, List.head?_cons, hfoot]
  decide

/-! ## C15: what a listing request does to the registry -/

theorem FuncsPages_unchanged (env : Env) (pages : Pages) (s : Session) (reg : Registry)
    (m : MessageCreate) (pfx : GoString)
    (h : ¬ ∃ cmd pkg doc sent, env.Fields m.Content = [cmd, pkg] ∧
      env.getDoc pkg = { doc := some doc, err := false } ∧
      s.ChannelMessageSendEmbed m.ChannelID
        (firstPageEmbed pages (lit "functions") (funcsListener pages m doc)) = some sent) :
    ∃ eff, FuncsPages env pages s reg m pfx = Except.ok (reg, eff) := by
  cases hf : env.Fields m.Content with
  | nil =>
    unfold FuncsPages
    simp [hf, pure, Except.pure]
  | cons cmd l1 =>
    cases l1 with
    | nil =>
      unfold FuncsPages
      simp [hf, pure, Except.pure]
    | cons pkg l2 =>
      cases l2 with
      | cons x l3 =>
        unfold FuncsPages
        simp [hf, pure, Except.pure]
      | nil =>
        cases hd : env.getDoc pkg with
        | mk d e =>
          cases e with
          | true =>
            unfold FuncsPages
            simp [hf, hd, index, bind, Except.bind, pure, Except.pure]
          | false =>
            cases d with
            | none =>
              unfold FuncsPages
              simp [hf, hd, index, bind, Except.bind, pure, Except.pure]
            | some doc =>
              rw [FuncsPages_fetched env pages s reg m pfx cmd pkg doc hf hd]
              cases hs : s.ChannelMessageSendEmbed m.ChannelID
                  (firstPageEmbed pages (lit "functions") (funcsListener pages m doc)) with
              | none => exact ⟨_, rfl⟩
              | some sent => exact absurd ⟨cmd, pkg, doc, sent, hf, hd, hs⟩ h

theorem TypesPages_unchanged (env : Env) (pages : Pages) (s : Session) (reg : Registry)
    (m : MessageCreate) (pfx : GoString)
    (h : ¬ ∃ cmd pkg doc sent, env.Fields m.Content = [cmd, pkg] ∧
      env.getDoc pkg = { doc := some doc, err := false } ∧
      s.ChannelMessageSendEmbed m.ChannelID
        (firstPageEmbed pages (lit "types") (typesListener pages m doc)) = some sent) :
    ∃ eff, TypesPages env pages s reg m pfx = Except.ok (reg, eff) := by
  cases hf : env.Fields m.Content with
  | nil =>
    unfold TypesPages
    simp [hf, pure, Except.pure]
  | cons cmd l1 =>
    cases l1 with
    | nil =>
      unfold TypesPages
      simp [hf, pure, Except.pure]
    | cons pkg l2 =>
      cases l2 with
      | cons x l3 =>
        unfold TypesPages
        simp [hf, pure, Except.pure]
      | nil =>
        cases hd : env.getDoc pkg with
        | mk d e =>
          cases e with
          | true =>
            unfold TypesPages
            simp [hf, hd, index, bind, Except.bind, pure, Except.pure]
          | false =>
            cases d with
            | none =>
              unfold TypesPages
              simp [hf, hd, index, bind, Except.bind, pure, Except.pure]
            | some doc =>
              rw [TypesPages_fetched env pages s reg m pfx cmd pkg doc hf hd]
              cases hs : s.ChannelMessageSendEmbed m.ChannelID
                  (firstPageEmbed pages (lit "types") (typesListener pages m doc)) with
              | none => exact ⟨_, rfl⟩
              | some sent => exact absurd ⟨cmd, pkg, doc, sent, hf, hd, hs⟩ h

theorem FuncsPages_sent (env : Env) (pages : Pages) (s : Session) (reg : Registry)
    (m : MessageCreate) (pfx cmd pkg : GoString) (doc : Doc) (sent : Message)
    (hfields : env.Fields m.Content = [cmd, pkg])
    (hdoc : env.getDoc pkg = { doc := some doc, err := false })
    (hsend : s.ChannelMessageSendEmbed m.ChannelID
      (firstPageEmbed pages (lit "functions") (funcsListener pages m doc)) = some sent) :
    ∃ eff, FuncsPages env pages s reg m pfx =
      Except.ok (reg.store sent.ID (funcsListener pages m doc), eff) := by
  rw [FuncsPages_fetched env pages s reg m pfx cmd pkg doc hfields hdoc, hsend]
  exact ⟨_, rfl⟩

theorem TypesPages_sent (env : Env) (pages : Pages) (s : Session) (reg : Registry)
    (m : MessageCreate) (pfx cmd pkg : GoString) (doc : Doc) (sent : Message)
    (hfields : env.Fields m.Content = [cmd, pkg])
    (hdoc : env.getDoc pkg = { doc := some doc, err := false })
    (hsend : s.ChannelMessageSendEmbed m.ChannelID
      (firstPageEmbed pages (lit "types") (typesListener pages m doc)) = some sent) :
    ∃ eff, TypesPages env pages s reg m pfx =
      Except.ok (reg.store sent.ID (typesListener pages m doc), eff) := by
  rw [TypesPages_fetched env pages s reg m pfx cmd pkg doc hfields hdoc, hsend]
  exact ⟨_, rfl⟩

/-- C15: `FuncsPages` and `TypesPages` always return, and they change the
table `pageListeners` exactly when the message has two tokens, `getDoc` answers
without error with an index that is not nil, and the first page is sent. Then
the new table holds, under the identifier of the sent message, the state with
current page 1, the kind of the listing, the identifier of the requester and
the fetched index, and every other key is as before. In every other case the
table is the one before the call. -/
theorem listing_registers_state (env : Env) (pages : Pages) (s : Session) (reg : Registry)
    (m : MessageCreate) (pfx : GoString) :
    (∃ reg' eff, FuncsPages env pages s reg m pfx = Except.ok (reg', eff) ∧
      (∀ cmd pkg doc sent, env.Fields m.Content = [cmd, pkg] →
        env.getDoc pkg = { doc := some doc, err := false } →
        s.ChannelMessageSendEmbed m.ChannelID
          (firstPageEmbed pages (lit "functions") (funcsListener pages m doc)) = some sent →
        (∃ p, reg' sent.ID = some p ∧ p.CurrentPage = 1 ∧ p.PageType = lit "functions" ∧
          p.UserID = m.Author.ID ∧ p.Data = doc) ∧
        ∀ k, k ≠ sent.ID → reg' k = reg k) ∧
      ((¬ ∃ cmd pkg doc sent, env.Fields m.Content = [cmd, pkg] ∧
          env.getDoc pkg = { doc := some doc, err := false } ∧
          s.ChannelMessageSendEmbed m.ChannelID
            (firstPageEmbed pages (lit "functions") (funcsListener pages m doc)) = some sent) →
        reg' = reg)) ∧
    (∃ reg' eff, TypesPages env pages s reg m pfx = Except.ok (reg', eff) ∧
      (∀ cmd pkg doc sent, env.Fields m.Content = [cmd, pkg] →
        env.getDoc pkg = { doc := some doc, err := false } →
        s.ChannelMessageSendEmbed m.ChannelID
          (firstPageEmbed pages (lit "types") (typesListener pages m doc)) = some sent →
        (∃ p, reg' sent.ID = some p ∧ p.CurrentPage = 1 ∧ p.PageType = lit "types" ∧
          p.UserID = m.Author.ID ∧ p.Data = doc) ∧
        ∀ k, k ≠ sent.ID → reg' k = reg k) ∧
      ((¬ ∃ cmd pkg doc sent, env.Fields m.Content = [cmd, pkg] ∧
          env.getDoc pkg = { doc := some doc, err := false } ∧
          s.ChannelMessageSendEmbed m.ChannelID
            (firstPageEmbed pages (lit "types") (typesListener pages m doc)) = some sent) →
        reg' = reg)) := by
  constructor
  · by_cases h : ∃ cmd pkg doc sent, env.Fields m.Content = [cmd, pkg] ∧
        env.getDoc pkg = { doc := some doc, err := false } ∧
        s.ChannelMessageSendEmbed m.ChannelID
          (firstPageEmbed pages (lit "functions") (funcsListener pages m doc)) = some sent
    · obtain ⟨cmd, pkg, doc, sent, hf, hd, hs⟩ := h
      obtain ⟨eff, hrun⟩ := FuncsPages_sent env pages s reg m pfx cmd pkg doc sent hf hd hs
      refine ⟨_, eff, hrun, ?_, fun hno => absurd ⟨cmd, pkg, doc, sent, hf, hd, hs⟩ hno⟩
      intro cmd2 pkg2 doc2 sent2 hf2 hd2 hs2
      rw [hf] at hf2
      cases hf2
      rw [hd] at hd2
      cases hd2
      rw [hs] at hs2
      cases hs2
      refine ⟨⟨funcsListener pages m doc, by simp [Registry.store], rfl, rfl, rfl, rfl⟩, ?_⟩
      intro k hk
      simp [Registry.store, hk]
    · obtain ⟨eff, hrun⟩ := FuncsPages_unchanged env pages s reg m pfx h
      refine ⟨reg, eff, hrun, ?_, fun _ => rfl⟩
      intro cmd pkg doc sent hf hd hs
      exact absurd ⟨cmd, pkg, doc, sent, hf, hd, hs⟩ h
  · by_cases h : ∃ cmd pkg doc sent, env.Fields m.Content = [cmd, pkg] ∧
        env.getDoc pkg = { doc := some doc, err := false } ∧
        s.ChannelMessageSendEmbed m.ChannelID
          (firstPageEmbed pages (lit "types") (typesListener pages m doc)) = some sent
    · obtain ⟨cmd, pkg, doc, sent, hf, hd, hs⟩ := h
      obtain ⟨eff, hrun⟩ := TypesPages_sent env pages s reg m pfx cmd pkg doc sent hf hd hs
      refine ⟨_, eff, hrun, ?_, fun hno => absurd ⟨cmd, pkg, doc, sent, hf, hd, hs⟩ hno⟩
      intro cmd2 pkg2 doc2 sent2 hf2 hd2 hs2
      rw [hf] at hf2
      cases hf2
      rw [hd] at hd2
      cases hd2
      rw [hs] at hs2
      cases hs2
      refine ⟨⟨typesListener pages m doc, by simp [Registry.store], rfl, rfl, rfl, rfl⟩, ?_⟩
      intro k hk
      simp [Registry.store, hk]
    · obtain ⟨eff, hrun⟩ := TypesPages_unchanged env pages s reg m pfx h
      refine ⟨reg, eff, hrun, ?_, fun _ => rfl⟩
      intro cmd pkg doc sent hf hd hs
      exact absurd ⟨cmd, pkg, doc, sent, hf, hd, hs⟩ h

/-- C15 at work on the table `sampleRegistry`: the request `!getfuncs strings`
adds the state of the user `u1` under `m1` and leaves the entry `m0` as it
was; when the send fails the table has no entry `m1`. -/
theorem listing_registers_state_witness :
    (FuncsPages stringsEnv samplePages okSession sampleRegistry listingRequest (lit "!")).map
        (fun r => ((r.1 (lit "m1")).map (fun p => (p.CurrentPage, p.UserID)),
          decide (r.1 (lit "m0") = sampleRegistry (lit "m0")))) =
      Except.ok (some (1, lit "u1"), true) ∧
    (FuncsPages stringsEnv samplePages failingSession sampleRegistry listingRequest
        (lit "!")).map (fun r => r.1 (lit "m1")) = Except.ok none := by
  obtain ⟨reg1, eff1, hrun1, hsucc1, _⟩ :=
    (listing_registers_state stringsEnv samplePages okSession sampleRegistry listingRequest
      (lit "!")).1
  obtain ⟨reg2, eff2, hrun2, _, hfail2⟩ :=
    (listing_registers_state stringsEnv samplePages failingSession sampleRegistry
      listingRequest (lit "!")).1
  obtain ⟨⟨p, hp, h1, _, h3, _⟩, hother⟩ := hsucc1 (lit "!getfuncs") (lit "strings") stringsDoc
    { ID := lit "m1", ChannelID := lit "c1" } (by decide) rfl rfl
  have hm0 := hother (lit "m0") (by decide)
  have hsame : reg2 = sampleRegistry := by
    apply hfail2
    rintro ⟨_, _, _, sent, _, _, hs⟩
    cases hs
  constructor
  · rw [hrun1]
    simp only [Except.map, hp, hm0, Option.map_some', h1, h3, decide_True]
    rfl
  · rw [hrun2, hsame]
    rfl

/-! ## C16: the bounds of the registered page -/

/-- C16: when `FuncsPages` or `TypesPages` registers a state for an index
whose listed collection (of a length below `2 ^ 53`) has at least one item,
that state satisfies `1 ≤ CurrentPage ≤ PageLimit`; when the collection is
empty the state has page limit 0 and current page 1. -/
theorem registered_page_bounds (env : Env) (pages : Pages) (s : Session) (reg : Registry)
    (m : MessageCreate) (pfx cmd pkg : GoString) (doc : Doc) (sent : Message)
    (hfields : env.Fields m.Content = [cmd, pkg])
    (hdoc : env.getDoc pkg = { doc := some doc, err := false })
    (hfn : doc.Functions.length < 2 ^ 53) (hty : doc.Types.length < 2 ^ 53) :
    (s.ChannelMessageSendEmbed m.ChannelID
        (firstPageEmbed pages (lit "functions") (funcsListener pages m doc)) = some sent →
      ∃ reg' eff p, FuncsPages env pages s reg m pfx = Except.ok (reg', eff) ∧
        reg' sent.ID = some p ∧
        (doc.Functions ≠ [] → 1 ≤ p.CurrentPage ∧ p.CurrentPage ≤ p.PageLimit) ∧
        (doc.Functions = [] → p.PageLimit = 0 ∧ p.CurrentPage = 1)) ∧
    (s.ChannelMessageSendEmbed m.ChannelID
        (firstPageEmbed pages (lit "types") (typesListener pages m doc)) = some sent →
      ∃ reg' eff p, TypesPages env pages s reg m pfx = Except.ok (reg', eff) ∧
        reg' sent.ID = some p ∧
        (doc.Types ≠ [] → 1 ≤ p.CurrentPage ∧ p.CurrentPage ≤ p.PageLimit) ∧
        (doc.Types = [] → p.PageLimit = 0 ∧ p.CurrentPage = 1)) := by
  have hF : (funcsListener pages m doc).PageLimit = (doc.Functions.length + 9) / 10 :=
    Ceil_divTen _ hfn
  have hT : (typesListener pages m doc).PageLimit = (doc.Types.length + 9) / 10 :=
    Ceil_divTen _ hty
  constructor
  · intro hs
    obtain ⟨eff, hrun⟩ := FuncsPages_sent env pages s reg m pfx cmd pkg doc sent hfields hdoc hs
    refine ⟨_, eff, funcsListener pages m doc, hrun, by simp [Registry.store], ?_, ?_⟩
    · intro hne
      have hpos : 0 < doc.Functions.length := List.length_pos.mpr hne
      rw [hF]
      have : (funcsListener pages m doc).CurrentPage = 1 := rfl
      omega
    · intro he
      rw [hF, he]
      exact ⟨rfl, rfl⟩
  · intro hs
    obtain ⟨eff, hrun⟩ := TypesPages_sent env pages s reg m pfx cmd pkg doc sent hfields hdoc hs
    refine ⟨_, eff, typesListener pages m doc, hrun, by simp [Registry.store], ?_, ?_⟩
    · intro hne
      have hpos : 0 < doc.Types.length := List.length_pos.mpr hne
      rw [hT]
      have : (typesListener pages m doc).CurrentPage = 1 := rfl
      omega
    · intro he
      rw [hT, he]
      exact ⟨rfl, rfl⟩

/-- C16 at work: the state registered for an index with 23 functions has
current page 1 within its limit of 3 pages. -/
theorem registered_page_bounds_witness :
    (FuncsPages (envOf (lit "strings") (listingDoc 23)) samplePages okSession sampleRegistry
        listingRequest (lit "!")).map
      (fun r => (r.1 (lit "m1")).map
        (fun p => decide (1 ≤ p.CurrentPage ∧ p.CurrentPage ≤ p.PageLimit))) =
      Except.ok (some true) := by
  obtain ⟨reg', eff, p, hrun, hp, hne, _⟩ :=
    (registered_page_bounds (envOf (lit "strings") (listingDoc 23)) samplePages okSession
      sampleRegistry listingRequest (lit "!") (lit "!getfuncs") (lit "strings") (listingDoc 23)
      { ID := lit "m1", ChannelID := lit "c1" } (by decide) (envOf_getDoc _ _)
      (by rw [(length_listingDoc 23).1]; norm_num)
      (by rw [(length_listingDoc 23).2]; norm_num)).1 rfl
  have hb := hne (by decide)
  rw [hrun]
  simp [Except.map, hp, hb]

/-! ## C18: what one matched entry adds to the text -/

/-- C18 (as stated, refuted): the method `WriteByte` of `stringsDoc` has the
example `b.WriteByte(65)`; the glob lookup matches it with the patterns `*` and
`WriteByte`, and the text it assembles holds the signature and the placeholder
but no example block. -/
theorem glob_text_has_no_example :
    (globMatches (globMatch (lit "*")) (globMatch (lit "WriteByte")) stringsDoc).map
        (fun fn => (fn.Name, fn.Example)) = [(lit "WriteByte", lit "b.WriteByte(65)")] ∧
    globAssemble (globMatch (lit "*")) (globMatch (lit "WriteByte")) stringsDoc =
      Except.ok (lit "`func (b *Builder) WriteByte(c byte) error`:\n*no information available*") ∧
    (globAssemble (globMatch (lit "*")) (globMatch (lit "WriteByte")) stringsDoc).map
        (fun msg => Contains msg (lit "b.WriteByte(65)")) = Except.ok false := by
  decide

/-- C18 (amended): in the symbol lookup and in the exact method lookup, every
matched function entry adds to the assembled text, at its place among the
matches, its signature between backticks, then a line break and its first
comment line or the placeholder, then, only when its example is not empty, the
fenced block that holds the example. In the glob lookup every matched entry
adds its signature between backticks and a colon, a line break and its first
comment line or the placeholder, and never an example block. -/
theorem entry_text_in_assembled (env : Env) (hE : FoldLaws env.EqualFold) (doc : Doc)
    (t name : GoString) (reT reN : Matcher) (l1 l2 : List Function) (fn : Function) :
    (plainMatches env doc name = l1 ++ fn :: l2 →
      (queryAssemble env doc name).map Prod.snd = Except.ok
        ((l1.map renderQueryFn).flatten ++
          (lit "`" ++ fn.Signature ++ lit "`" ++
            (lit "\n" ++ firstLineOr (lit "*no information*") fn.Comments) ++
            (if fn.Example = [] then []
              else lit "\n\nExample:\n```go\n" ++ fn.Example ++ lit "\n```")) ++
          (l2.map renderQueryFn).flatten)) ∧
    (methodMatches env doc t name = l1 ++ fn :: l2 →
      (methodAssemble env doc t name).map Prod.fst = Except.ok
        ((l1.map renderMethod).flatten ++
          (lit "`" ++ fn.Signature ++ lit "`" ++
            (lit "\n" ++ firstLineOr (lit "*no info*") fn.Comments) ++
            (if fn.Example = [] then []
              else lit "\nExample:\n```\n" ++ fn.Example ++ lit "\n```")) ++
          (l2.map renderMethod).flatten)) ∧
    (globMatches reT reN doc = l1 ++ fn :: l2 →
      globAssemble reT reN doc = Except.ok
        ((l1.map renderGlob).flatten ++
          (lit "`" ++ fn.Signature ++ lit "`:\n" ++
            firstLineOr (lit "*no information available*") fn.Comments) ++
          (l2.map renderGlob).flatten)) := by
  refine ⟨?_, ?_, ?_⟩
  · intro h
    have hne : plainMatches env doc name ≠ [] := by
      rw [h]
      simp
    rw [queryAssemble_eq env hE doc name, if_neg hne, h]
    simp [Except.map, renderQueryFn]
  · intro h
    rw [methodAssemble_eq env doc t name, h]
    simp [Except.map, renderMethod]
  · intro h
    rw [globAssemble_eq reT reN doc, h]
    simp [renderGlob]

/-- C18 (amended) at work on the index `stringsDoc`: the text of
`builder.writebyte` is the signature, the placeholder and the fenced example
of `WriteByte`. -/
theorem entry_text_in_assembled_witness :
    (methodAssemble stringsEnv stringsDoc (lit "builder") (lit "writebyte")).map Prod.fst =
      Except.ok (lit ("`func (b *Builder) WriteByte(c byte) error`\n*no info*" ++
        "\nExample:\n```\nb.WriteByte(65)\n```")) :=
  ((entry_text_in_assembled stringsEnv asciiEqualFold_laws stringsDoc (lit "builder")
    (lit "writebyte") (globMatch []) (globMatch []) [] []
    { Name := lit "WriteByte", FnType := FunctionType.FnMethod, MethodOf := lit "Builder",
      Signature := lit "func (b *Builder) WriteByte(c byte) error",
      Comments := [], Example := lit "b.WriteByte(65)" }).2.1 (by decide)).trans (by decide)

/-! ## C19: no index or slice goes out of range -/

theorem queryResponse_ok_or_nil (env : Env) (pkg name : GoString) :
    (∃ e, queryResponse env pkg name = Except.ok e) ∨
      queryResponse env pkg name = Except.error Panic.nilDereference := by
  cases hf : env.getDoc pkg with
  | mk d e =>
    cases e with
    | true =>
      left
      unfold queryResponse
      simp [hf, pure, Except.pure]
    | false =>
      cases d with
      | none =>
        right
        unfold queryResponse
        simp [hf, deref, bind, Except.bind, throw, throwThe, MonadExceptOf.throw]
      | some doc =>
        left
        obtain ⟨st, hst⟩ := queryAssemble_ok env doc name
        exact ⟨_, queryResponse_of_assemble env pkg name doc st hf hst⟩

theorem typeResponse_ok_or_nil (env : Env) (pkg name : GoString) :
    (∃ e, typeResponse env pkg name = Except.ok e) ∨
      typeResponse env pkg name = Except.error Panic.nilDereference := by
  cases hf : env.getDoc pkg with
  | mk d e =>
    cases e with
    | true =>
      left
      unfold typeResponse
      simp [hf, pure, Except.pure]
    | false =>
      cases d with
      | none =>
        right
        unfold typeResponse
        simp [hf, deref, bind, Except.bind, throw, throwThe, MonadExceptOf.throw]
      | some doc =>
        left
        obtain ⟨st, hst⟩ := typeAssemble_ok env doc name
        exact ⟨_, typeResponse_of_assemble env pkg name doc st hf hst⟩

theorem pkgResponse_ok_or_nil (env : Env) (pkg : GoString) :
    (∃ e, pkgResponse env pkg = Except.ok e) ∨
      pkgResponse env pkg = Except.error Panic.nilDereference := by
  cases hf : env.getDoc pkg with
  | mk d e =>
    cases e with
    | true =>
      left
      unfold pkgResponse
      simp [hf, pure, Except.pure]
    | false =>
      cases d with
      | none =>
        right
        unfold pkgResponse
        simp [hf, deref, bind, Except.bind, throw, throwThe, MonadExceptOf.throw]
      | some doc =>
        left
        unfold pkgResponse
        simp [hf, deref, bind, Except.bind, pure, Except.pure]

theorem methodGlobResponse_ok_or_nil (env : Env) (pkg t name : GoString) :
    (∃ e, methodGlobResponse env pkg t name = Except.ok e) ∨
      methodGlobResponse env pkg t name = Except.error Panic.nilDereference := by
  cases hT : env.Compile t with
  | error err =>
    left
    unfold methodGlobResponse
    simp [hT, pure, Except.pure]
  | ok reT =>
    cases hN : env.Compile name with
    | error err =>
      left
      unfold methodGlobResponse
      simp [hT, hN, pure, Except.pure]
    | ok reN =>
      cases hf : env.getDoc pkg with
      | mk d e =>
        cases e with
        | true =>
          left
          unfold methodGlobResponse
          simp [hT, hN, hf, pure, Except.pure]
        | false =>
          cases d with
          | none =>
            right
            unfold methodGlobResponse
            simp [hT, hN, hf, deref, bind, Except.bind, throw, throwThe, MonadExceptOf.throw]
          | some doc =>
            left
            exact ⟨_, methodGlobResponse_of_assemble env pkg t name doc reT reN _ hT hN hf
              (globAssemble_eq reT reN doc)⟩

theorem methodResponse_ok_or_nil (env : Env) (pkg t name : GoString) :
    (∃ e, methodResponse env pkg t name = Except.ok e) ∨
      methodResponse env pkg t name = Except.error Panic.nilDereference := by
  by_cases hw : Contains t (lit "*") = true ∨ Contains name (lit "*") = true
  · have : methodResponse env pkg t name = methodGlobResponse env pkg t name := by
      unfold methodResponse
      rcases hw with h | h <;> simp [h]
    rw [this]
    exact methodGlobResponse_ok_or_nil env pkg t name
  · have ht : Contains t (lit "*") = false := by
      cases h : Contains t (lit "*") with
      | false => rfl
      | true => exact absurd (Or.inl h) hw
    have hn : Contains name (lit "*") = false := by
      cases h : Contains name (lit "*") with
      | false => rfl
      | true => exact absurd (Or.inr h) hw
    cases hf : env.getDoc pkg with
    | mk d e =>
      cases e with
      | true =>
        left
        unfold methodResponse
        simp [ht, hn, hf, pure, Except.pure]
      | false =>
        cases d with
        | none =>
          right
          unfold methodResponse
          simp [ht, hn, hf, deref, bind, Except.bind, throw, throwThe, MonadExceptOf.throw]
        | some doc =>
          left
          exact ⟨_, methodResponse_of_assemble env pkg t name doc _ ht hn hf
            (methodAssemble_eq env doc t name)⟩

theorem map_some_ok_or_nil {r : Go MessageEmbed}
    (h : (∃ e, r = Except.ok e) ∨ r = Except.error Panic.nilDereference) :
    (∃ e, r.map some = Except.ok e) ∨ r.map some = Except.error Panic.nilDereference := by
  rcases h with ⟨e, he⟩ | he
  · exact Or.inl ⟨some e, by rw [he]; rfl⟩
  · exact Or.inr (by rw [he]; rfl)

theorem HandleDoc_of_two (env : Env) (content cmd pkg : GoString)
    (hfields : env.Fields content = [cmd, pkg]) :
    HandleDoc env content = (pkgResponse env pkg).map some := by
  unfold HandleDoc
  cases h : pkgResponse env pkg <;>
    simp [hfields, index, bind, Except.bind, pure, Except.pure, Except.map, h]

theorem HandleDoc_of_plain (env : Env) (content cmd pkg tok : GoString)
    (hfields : env.Fields content = [cmd, pkg, tok])
    (hdot : Contains tok (lit ".") = false) :
    HandleDoc env content = (queryResponse env pkg tok).map some := by
  unfold HandleDoc
  cases h : queryResponse env pkg tok <;>
    simp [hfields, hdot, index, bind, Except.bind, pure, Except.pure, Except.map, h]

theorem Split_two_of_dot (tok : GoString) (hdot : Contains tok (lit ".") = true) :
    ∃ a b rest, Split tok 46 = a :: b :: rest := by
  have hmem : (46 : UInt8) ∈ tok := (Contains_dot tok).mp hdot
  rw [Split_eq tok 46, if_pos hmem, Split_eq ((tok.dropWhile _).drop 1) 46]
  exact ⟨_, _, _, rfl⟩

theorem HandleDoc_ok_or_nil (env : Env) (content : GoString) :
    (∃ e, HandleDoc env content = Except.ok e) ∨
      HandleDoc env content = Except.error Panic.nilDereference := by
  cases hf : env.Fields content with
  | nil =>
    left
    unfold HandleDoc
    simp [hf, pure, Except.pure]
  | cons cmd l1 =>
    cases l1 with
    | nil =>
      left
      unfold HandleDoc
      simp [hf, bind, Except.bind, pure, Except.pure]
    | cons pkg l2 =>
      cases l2 with
      | nil =>
        rw [HandleDoc_of_two env content cmd pkg hf]
        exact map_some_ok_or_nil (pkgResponse_ok_or_nil env pkg)
      | cons tok l3 =>
        cases l3 with
        | nil =>
          cases hdot : Contains tok (lit ".") with
          | false =>
            rw [HandleDoc_of_plain env content cmd pkg tok hf hdot]
            exact map_some_ok_or_nil (queryResponse_ok_or_nil env pkg tok)
          | true =>
            obtain ⟨a, b, rest, hsplit⟩ := Split_two_of_dot tok hdot
            rw [HandleDoc_of_split env content cmd pkg tok a b rest hf hdot hsplit]
            exact map_some_ok_or_nil (methodResponse_ok_or_nil env pkg a b)
        | cons x l4 =>
          left
          unfold HandleDoc
          simp [hf, bind, Except.bind, pure, Except.pure]

/-- C19: no index and no slice of the lookup handlers goes out of range. For
every message and every environment `HandleDoc`, `queryResponse`,
`typeResponse`, `methodResponse` and `methodGlobResponse` return a block; the
only panic left
is the dereference of a nil index that `getDoc` hands back without an error.
In particular a token that contains a dot is split into at least two parts
(also `.` and `Foo.`), so `split[0]` and `split[1]` exist. -/
theorem lookups_stay_in_range (env : Env) (content pkg t name : GoString) :
    ((∃ e, HandleDoc env content = Except.ok e) ∨
      HandleDoc env content = Except.error Panic.nilDereference) ∧
    ((∃ e, queryResponse env pkg name = Except.ok e) ∨
      queryResponse env pkg name = Except.error Panic.nilDereference) ∧
    ((∃ e, typeResponse env pkg name = Except.ok e) ∨
      typeResponse env pkg name = Except.error Panic.nilDereference) ∧
    ((∃ e, methodResponse env pkg t name = Except.ok e) ∨
      methodResponse env pkg t name = Except.error Panic.nilDereference) ∧
    ((∃ e, methodGlobResponse env pkg t name = Except.ok e) ∨
      methodGlobResponse env pkg t name = Except.error Panic.nilDereference) ∧
    (∀ tok, Contains tok (lit ".") = true → 2 ≤ (Split tok 46).length) ∧
    Split (lit ".") 46 = [[], []] ∧ Split (lit "Foo.") 46 = [lit "Foo", []] := by
  refine ⟨HandleDoc_ok_or_nil env content, queryResponse_ok_or_nil env pkg name,
    typeResponse_ok_or_nil env pkg name, methodResponse_ok_or_nil env pkg t name, methodGlobResponse_ok_or_nil env pkg t name,
    ?_, by decide, by decide⟩
  intro tok hdot
  obtain ⟨a, b, rest, hsplit⟩ := Split_two_of_dot tok hdot
  rw [hsplit]
  simp

end DrDocso
